import Mathlib

/-
  Shallow embedding of the Q-Chess engine (src/Demo_Q-Chess.py).

  The presentation layer (pygame drawing, click handling, fonts) and the
  measurement backend (qiskit Aer) are out of scope; the engine state and
  every rule-relevant method of SplitQubit, QuantumSubsystem,
  QuantumSplitManager and ChessGame are translated below.  Stateful Python
  methods become explicit state-passing functions; the random joint sample
  produced by the quantum simulator becomes an explicit oracle argument.
-/

set_option maxHeartbeats 1600000
set_option maxRecDepth 4000

namespace QChess

/-- Piece color: the first character of a Python piece string such as "wp". -/
inductive Color
  | w
  | b
deriving DecidableEq

/-- The opposing color (Python: `'b' if color == 'w' else 'w'`). -/
def Color.other : Color → Color
  | .w => .b
  | .b => .w

/-- Piece kind: the second character of a Python piece string
(pawn, knight, bishop, rook, queen, king). -/
inductive Kind
  | p
  | n
  | b
  | r
  | q
  | k
deriving DecidableEq

/-- A piece identifier, e.g. Python "wn" is `⟨.w, .n⟩`. The empty string
(empty square) is represented by `Option.none` at the board level. -/
structure Piece where
  color : Color
  kind : Kind
deriving DecidableEq

abbrev Pos := Int × Int

/-- The 8×8 Python board (list of lists of strings, '' = empty). -/
abbrev Board := Pos → Option Piece

/-- Python list indexing wraps indices in [-8, 0) to the end of the list;
`Int.emod` gives exactly that wrap for indices in [-8, 8).  Accesses with an
index outside [-8, 8) raise IndexError in Python and do not occur on the
code paths verified here. -/
def normPos (p : Pos) : Pos := (p.1.emod 8, p.2.emod 8)

/-- Read `board[r][c]`. -/
def bget (bo : Board) (r c : Int) : Option Piece := bo (normPos (r, c))

/-- Write `board[p.1][p.2] = v`. -/
def bset (bo : Board) (p : Pos) (v : Option Piece) : Board :=
  fun q => if q = normPos p then v else bo q

/-- One of the two collapse outcomes of a split qubit: Python strings 'a'
(measured bit 0) and 'b' (measured bit 1). -/
inductive BranchTag
  | a
  | b
deriving DecidableEq

/-- Python `SplitBranch`: one candidate (square, identity) placement. -/
structure SplitBranch where
  pos : Pos
  piece_type : Piece
deriving DecidableEq

/-- Python `SplitQubit`.  The `children` list is write-only in the source and
omitted.  `qubit_index` is the index of the qubit in its subsystem's
`split_qubits` list, so it is not stored separately.  `parent` holds the
parent qubit's index in the same subsystem together with the parent branch
the child is conditioned on (Python stores an object reference plus the
branch string). -/
structure SplitQubit where
  branch_a : SplitBranch
  branch_b : SplitBranch
  parent : Option (Nat × BranchTag)
  collapsed_result : Option BranchTag
deriving DecidableEq

/-- Python `QuantumSubsystem`.  The per-subsystem `position_to_qubit` map is
write-only in the source and omitted.  The quantum circuit `qc` is
represented by the conditional structure already recorded in the qubits'
`parent` fields (an `h` gate on each root, a controlled-Hadamard from the
conditioned parent branch onto each child); the actual sampling of that
circuit is the external measurement backend, given to `collapse` as an
explicit sample.  `result_map` maps qubit indices to outcomes. -/
structure QuantumSubsystem where
  split_qubits : List SplitQubit
  result_map : List (Nat × BranchTag)
  measured : Bool
deriving DecidableEq

/-- Map `f` over a list together with each element's index, counting from
`i`. -/
def listMapIdxFrom {α : Type} (f : Nat → α → α) : Nat → List α → List α
  | _, [] => []
  | i, x :: xs => f i x :: listMapIdxFrom f (i + 1) xs

/-- Map `f` over a list together with each element's index. -/
def listMapIdx {α : Type} (f : Nat → α → α) (xs : List α) : List α :=
  listMapIdxFrom f 0 xs

/-- Python `QuantumSubsystem.add_split_qubit` (the unused `piece_type`
parameter of the source is dropped; the circuit gates it lays down are
represented by the `parent` field, see `QuantumSubsystem`).  Returns the new
qubit's index alongside the updated subsystem. -/
def QuantumSubsystem.add_split_qubit (s : QuantumSubsystem)
    (branch_a branch_b : SplitBranch) (parent : Option (Nat × BranchTag)) :
    QuantumSubsystem × Nat :=
  let idx := s.split_qubits.length
  let qubit : SplitQubit :=
    { branch_a := branch_a, branch_b := branch_b, parent := parent,
      collapsed_result := none }
  ({ s with split_qubits := s.split_qubits ++ [qubit] }, idx)

/-- Python `QuantumSubsystem.collapse`.  The joint sample drawn from the
qasm simulator (one shot, one bit per qubit, bit 0 ↦ 'a', bit 1 ↦ 'b') is
the argument `sample`.  If the subsystem is already measured the cached
`result_map` is returned and the sample is not consumed. -/
def QuantumSubsystem.collapse (s : QuantumSubsystem)
    (sample : Nat → BranchTag) : QuantumSubsystem :=
  if s.measured then s
  else
    { split_qubits :=
        listMapIdx (fun i q => { q with collapsed_result := some (sample i) })
          s.split_qubits,
      result_map := (List.range s.split_qubits.length).map fun i => (i, sample i),
      measured := true }

/-- Modelled from the spec: the measurement backend (the qiskit Aer
simulator, external to this repository) returns "one joint sample
consistent with the subsystem's conditional structure, uniform at every
unconditioned node".  The conditional structure laid down by
`add_split_qubit` applies a controlled Hadamard to a child qubit whose
control fires only when the parent measures the branch the child is
conditioned on; along any other parent outcome the child qubit stays |0⟩
and therefore measures branch `a`.  This predicate states exactly which
joint samples that circuit can produce. -/
def sampleConsistent (qubits : List SplitQubit) (sample : Nat → BranchTag) : Prop :=
  ∀ i q pi pb, qubits.get? i = some q → q.parent = some (pi, pb) →
    sample pi ≠ pb → sample i = BranchTag.a

/-- The board writes `QuantumSubsystem.apply_to_board` performs for one
qubit: clear both branch squares, then write the real piece at the
collapsed branch (Python picks `branch_b` whenever `collapsed_result` is
not `'a'`, including the uncollapsed `None`). -/
def applyQubitToBoard (bo : Board) (q : SplitQubit) : Board :=
  let b1 := bset bo q.branch_a.pos none
  let b2 := bset b1 q.branch_b.pos none
  let real := if q.collapsed_result = some BranchTag.a then q.branch_a else q.branch_b
  bset b2 real.pos (some real.piece_type)

/-- Python `QuantumSubsystem.apply_to_board`: force collapse first if not
yet measured (consuming `sample`), then fold the targeted qubit (all of the
subsystem's qubits when no target is given) into the board. -/
def QuantumSubsystem.apply_to_board (s : QuantumSubsystem)
    (sample : Nat → BranchTag) (bo : Board) (target : Option SplitQubit) :
    QuantumSubsystem × Board :=
  let s' := if s.measured then s else s.collapse sample
  let qubits := match target with
    | some tq => [tq]
    | none => s'.split_qubits
  (s', qubits.foldl applyQubitToBoard bo)

/-- An entry of the manager's `global_position_map`: Python stores
`(subsystem, qubit, branch)` object references; in this arena embedding the
subsystem is named by its index in `subsystems` and the qubit by its index
in that subsystem's `split_qubits` (both lists are append-only in the
source, so indices are stable names for the Python objects). -/
structure GMEntry where
  subIdx : Nat
  qubitIdx : Nat
  branch : BranchTag
deriving DecidableEq

/-- Python `QuantumSplitManager`. -/
structure QuantumSplitManager where
  subsystems : List QuantumSubsystem
  global_position_map : Pos → Option GMEntry

/-- The measurement oracle for a whole game: subsystem index ↦ qubit index
↦ outcome.  Each subsystem consumes its sample at most once (its `measured`
flag is permanent), so a per-subsystem table is a faithful model of the
single-shot simulator calls. -/
abbrev Oracle := Nat → Nat → BranchTag

def mupdate (f : Pos → Option GMEntry) (p : Pos) (v : Option GMEntry) :
    Pos → Option GMEntry :=
  fun q => if q = p then v else f q

/-- Python `QuantumSplitManager.create_split_qubit`: chain onto the owning
subsystem/qubit/branch when `from_pos` is indexed, else open a new
subsystem with a root qubit; register both resulting squares. -/
def QuantumSplitManager.create_split_qubit (m : QuantumSplitManager)
    (from_pos to_pos : Pos) (piece_type : Piece) : QuantumSplitManager :=
  let branch_a : SplitBranch := ⟨from_pos, piece_type⟩
  let branch_b : SplitBranch := ⟨to_pos, piece_type⟩
  match m.global_position_map from_pos with
  | some e =>
    match m.subsystems.get? e.subIdx with
    | some sub =>
      let res := sub.add_split_qubit branch_a branch_b (some (e.qubitIdx, e.branch))
      { subsystems := m.subsystems.set e.subIdx res.1,
        global_position_map :=
          mupdate (mupdate m.global_position_map from_pos
              (some ⟨e.subIdx, res.2, BranchTag.a⟩))
            to_pos (some ⟨e.subIdx, res.2, BranchTag.b⟩) }
    | none => m
  | none =>
    let sub0 : QuantumSubsystem :=
      { split_qubits := [], result_map := [], measured := false }
    let res := sub0.add_split_qubit branch_a branch_b none
    let si := m.subsystems.length
    { subsystems := m.subsystems ++ [res.1],
      global_position_map :=
        mupdate (mupdate m.global_position_map from_pos
            (some ⟨si, res.2, BranchTag.a⟩))
          to_pos (some ⟨si, res.2, BranchTag.b⟩) }

/-- Python `QuantumSplitManager.is_split_piece`. -/
def QuantumSplitManager.is_split_piece (m : QuantumSplitManager) (p : Pos) : Bool :=
  (m.global_position_map p).isSome

/-- Look up a qubit by its arena name (subsystem index, qubit index). -/
def QuantumSplitManager.getQubit (m : QuantumSplitManager) (si qi : Nat) :
    Option SplitQubit :=
  (m.subsystems.get? si).bind fun sub => sub.split_qubits.get? qi

/-- Python `QuantumSplitManager.collapse_qubit`: scan for the subsystem
owning the given qubit and collapse it.  Callers always obtain the qubit
from a `global_position_map` entry, whose subsystem index is the owner, so
the membership scan resolves to collapsing subsystem `si`. -/
def QuantumSplitManager.collapse_qubit (m : QuantumSplitManager)
    (oracle : Oracle) (si : Nat) : QuantumSplitManager :=
  let subs := listMapIdx
    (fun i sub => if i = si then sub.collapse (oracle i) else sub) m.subsystems
  { m with subsystems := subs }

/-- Python `QuantumSplitManager.collapse_all` (also the inline loop in
`ChessGame.is_in_check`, whose not-measured guard is redundant because
`collapse` itself is a no-op on measured subsystems). -/
def QuantumSplitManager.collapse_all (m : QuantumSplitManager)
    (oracle : Oracle) : QuantumSplitManager :=
  let subs := listMapIdx (fun i sub => sub.collapse (oracle i)) m.subsystems
  { m with subsystems := subs }

/-- Python `QuantumSplitManager.apply_collapse_to_board`.  For every
measured subsystem, fold the target qubit (Python passes the target object
through unconditionally, so each measured subsystem re-applies it) or, with
no target, all of that subsystem's qubits; then prune every global-map
entry whose subsystem is measured and whose qubit matches the target (any
qubit when no target).  Only measured subsystems call `apply_to_board`
here, so no oracle sample is consumed and `subsystems` is unchanged. -/
def QuantumSplitManager.apply_collapse_to_board (m : QuantumSplitManager)
    (bo : Board) (target : Option (Nat × Nat)) : Board × QuantumSplitManager :=
  let targetQubit : Option SplitQubit := target.bind fun t => m.getQubit t.1 t.2
  let bo' := m.subsystems.foldl
    (fun acc sub =>
      if sub.measured then
        match targetQubit with
        | some tq => applyQubitToBoard acc tq
        | none => sub.split_qubits.foldl applyQubitToBoard acc
      else acc) bo
  let measuredAt : Nat → Bool := fun i =>
    match m.subsystems.get? i with
    | some sub => sub.measured
    | none => false
  let gm' : Pos → Option GMEntry := fun p =>
    match m.global_position_map p with
    | some e =>
      if measuredAt e.subIdx &&
          (match target with
           | none => true
           | some t => decide (e.subIdx = t.1 ∧ e.qubitIdx = t.2)) then none
      else some e
    | none => none
  (bo', { m with global_position_map := gm' })

/-- Python `QuantumSplitManager.get_split_positions`: one group per
unmeasured subsystem, listing both branches of each of its qubits.  The
`processed_qubits` set of the source is redundant (each qubit object
belongs to exactly one subsystem and appears once in its list) and is
omitted. -/
def QuantumSplitManager.get_split_positions (m : QuantumSplitManager) :
    List (List (Pos × Piece)) :=
  m.subsystems.filterMap fun sub =>
    if sub.measured then none
    else
      let group := sub.split_qubits.foldr
        (fun qb acc =>
          (qb.branch_a.pos, qb.branch_a.piece_type) ::
            (qb.branch_b.pos, qb.branch_b.piece_type) :: acc) []
      if group.isEmpty then none else some group

/-- Per-color castling record, Python
`{'king': ..., 'queen': ..., 'king_nm': ..., 'queen_nm': ...}`:
currently-eligible flags plus never-moved flags. -/
structure CastlingInfo where
  king : Bool
  queen : Bool
  king_nm : Bool
  queen_nm : Bool
deriving DecidableEq

/-- An entry of `ChessGame.history`:
`(from_row, from_col, to_row, to_col, piece, target_piece)`. -/
structure HistEntry where
  from_row : Int
  from_col : Int
  to_row : Int
  to_col : Int
  piece : Piece
  target : Option Piece
deriving DecidableEq

/-- The rule-relevant state of Python `ChessGame`.  Pure UI fields
(`screen`, `font`, `selected`, `valid_moves`, `running`,
`selected_piece_to_place`, `piece_options`, `promotion_options`) are
omitted. -/
structure GameState where
  board : Board
  turn : Color
  captured : Color → List Piece
  en_passant : Option Pos
  castling : Color → CastlingInfo
  history : List HistEntry
  promotion_pending : Bool
  promotion_pos : Option Pos
  check_cache : Color → Option Bool
  game_over : Bool
  edit_mode : Bool
  draw_by_stalemate : Bool
  split_mode : Bool
  split_manager : QuantumSplitManager

/-- A board built from a finite list of placements (test fixture). -/
def boardOf (ps : List (Pos × Piece)) : Board :=
  fun p => (ps.find? fun x => decide (x.1 = p)).map fun x => x.2

def emptyManager : QuantumSplitManager := ⟨[], fun _ => none⟩

/-- A fresh `ChessGame` state except for the board (Python `__init__`
defaults). -/
def baseState (bo : Board) : GameState :=
  { board := bo, turn := Color.w, captured := fun _ => [],
    en_passant := none,
    castling := fun _ => ⟨false, false, true, true⟩,
    history := [], promotion_pending := false, promotion_pos := none,
    check_cache := fun _ => none, game_over := false, edit_mode := false,
    draw_by_stalemate := false, split_mode := false,
    split_manager := emptyManager }

def setTurn (s : GameState) (c : Color) : GameState := { s with turn := c }

def setBoard (s : GameState) (bo : Board) : GameState := { s with board := bo }

def setCastling (s : GameState) (c : Color) (ci : CastlingInfo) : GameState :=
  { s with castling := fun x => if x = c then ci else s.castling x }

def setCache (s : GameState) (c : Color) (v : Option Bool) : GameState :=
  { s with check_cache := fun x => if x = c then v else s.check_cache x }

/-- Python `ChessGame.invalidate_check_cache`. -/
def invalidate_check_cache (s : GameState) : GameState :=
  { s with check_cache := fun _ => none }

def addCaptured (s : GameState) (c : Color) (pc : Piece) : GameState :=
  { s with captured := fun x => if x = c then s.captured x ++ [pc] else s.captured x }

/-- Python membership test `(row, col) in moves`. -/
def posMem (p : Pos) (ms : List Pos) : Bool := ms.any fun mv => decide (mv = p)

/-- Python `ChessGame.get_pawn_moves`: single/double push onto empty
squares, diagonal captures onto enemy squares, the recorded en-passant
target.  Directions come from `turn`, which attack detection temporarily
sets to the piece owner's color. -/
def get_pawn_moves (s : GameState) (row col : Int) : List Pos :=
  let d : Int := if s.turn = Color.w then -1 else 1
  let start_row : Int := if s.turn = Color.w then 6 else 1
  let fwd : List Pos :=
    if 0 ≤ row + d ∧ row + d < 8 then
      if bget s.board (row + d) col = none then
        (row + d, col) ::
          (if row = start_row ∧ 0 ≤ row + 2 * d ∧ row + 2 * d < 8 then
             if bget s.board (row + 2 * d) col = none then [(row + 2 * d, col)]
             else []
           else [])
      else []
    else []
  let caps : List Pos := ([-1, 1] : List Int).foldr
    (fun dc acc =>
      let nc := col + dc
      (if 0 ≤ row + d ∧ row + d < 8 ∧ 0 ≤ nc ∧ nc < 8 then
        (match bget s.board (row + d) nc with
         | some tp => if tp.color ≠ s.turn then [((row + d, nc) : Pos)] else []
         | none => []) ++
        (if s.en_passant = some (row + d, nc) then [((row + d, nc) : Pos)] else [])
       else []) ++ acc) []
  fwd ++ caps

def knightOffsets : List (Int × Int) :=
  [(-2, -1), (-2, 1), (-1, -2), (-1, 2), (1, -2), (1, 2), (2, -1), (2, 1)]

/-- Python `ChessGame.get_knight_moves`. -/
def get_knight_moves (s : GameState) (row col : Int) : List Pos :=
  knightOffsets.foldr
    (fun od acc =>
      let r := row + od.1
      let c := col + od.2
      (if 0 ≤ r ∧ r < 8 ∧ 0 ≤ c ∧ c < 8 then
        match bget s.board r c with
        | none => [((r, c) : Pos)]
        | some tp => if tp.color ≠ s.turn then [((r, c) : Pos)] else []
       else []) ++ acc) []

/-- One ray of Python's bishop/rook while-loop: step until the edge or the
first occupied square (inclusive when the occupant is an enemy).  The fuel
is 16, more than any in-board ray can use, so it never cuts a ray short. -/
def rayWalk (s : GameState) (dr dc : Int) : Nat → Int → Int → List Pos
  | 0, _, _ => []
  | fuel + 1, r0, c0 =>
    let r := r0 + dr
    let c := c0 + dc
    if 0 ≤ r ∧ r < 8 ∧ 0 ≤ c ∧ c < 8 then
      match bget s.board r c with
      | none => (r, c) :: rayWalk s dr dc fuel r c
      | some tp => if tp.color ≠ s.turn then [(r, c)] else []
    else []

/-- Python `ChessGame.get_bishop_moves`. -/
def get_bishop_moves (s : GameState) (row col : Int) : List Pos :=
  ([(-1, -1), (-1, 1), (1, -1), (1, 1)] : List (Int × Int)).foldr
    (fun dd acc => rayWalk s dd.1 dd.2 16 row col ++ acc) []

/-- Python `ChessGame.get_rook_moves`. -/
def get_rook_moves (s : GameState) (row col : Int) : List Pos :=
  ([(-1, 0), (1, 0), (0, -1), (0, 1)] : List (Int × Int)).foldr
    (fun dd acc => rayWalk s dd.1 dd.2 16 row col ++ acc) []

/-- Python `ChessGame.get_queen_moves`. -/
def get_queen_moves (s : GameState) (row col : Int) : List Pos :=
  get_rook_moves s row col ++ get_bishop_moves s row col

/-- The eight adjacent king steps of Python `ChessGame.get_king_moves`
(the part that is generated in both simple and non-simple mode). -/
def kingAdjacent (s : GameState) (row col : Int) : List Pos :=
  ([-1, 0, 1] : List Int).foldr
    (fun dr acc =>
      ([-1, 0, 1] : List Int).foldr
        (fun dc acc2 =>
          (if dr = 0 ∧ dc = 0 then []
           else
             let r := row + dr
             let c := col + dc
             if 0 ≤ r ∧ r < 8 ∧ 0 ≤ c ∧ c < 8 then
               match bget s.board r c with
               | none => [((r, c) : Pos)]
               | some tp => if tp.color ≠ s.turn then [((r, c) : Pos)] else []
             else []) ++ acc2) acc) []

/-- Python `ChessGame.get_valid_moves` with `simple=True`: raw per-kind
candidate generation, no turn-ownership filter, no legality filter, king
without castling. -/
def get_valid_moves_simple (s : GameState) (col row : Int) : List Pos :=
  if s.game_over || s.edit_mode then []
  else
    match bget s.board row col with
    | none => []
    | some piece =>
      match piece.kind with
      | .p => get_pawn_moves s row col
      | .n => get_knight_moves s row col
      | .b => get_bishop_moves s row col
      | .r => get_rook_moves s row col
      | .q => get_queen_moves s row col
      | .k => kingAdjacent s row col

/-- Python `ChessGame.is_square_attacked` with `simple=True`: every enemy
piece on the current board (split or not) is tested via simple move
generation with `turn` temporarily set to the attacker color. -/
def is_square_attacked_simple (s : GameState) (row col : Int) (color : Color) :
    Bool :=
  let opp := color.other
  (List.range 8).any fun r =>
    (List.range 8).any fun c =>
      match bget s.board (r : Int) (c : Int) with
      | some piece =>
        decide (piece.color = opp) &&
          posMem (row, col) (get_valid_moves_simple (setTurn s opp) (c : Int) (r : Int))
      | none => false

/-- The hypothetical board `is_square_attacked` builds for one live branch:
a deep copy of the board with the branch's piece placed at its square and
every other square of the same subsystem group cleared. -/
def hypoBoard (bo : Board) (group : List (Pos × Piece)) (pos : Pos)
    (piece : Piece) : Board :=
  group.foldl (fun acc op => if op.1 ≠ pos then bset acc op.1 none else acc)
    (bset bo pos (some piece))

/-- Python `ChessGame.is_square_attacked` with `simple=False`: non-split
enemy pieces are tested on the current board; then each live branch of each
unmeasured subsystem is tested on its hypothetical board. -/
def is_square_attacked (s : GameState) (row col : Int) (color : Color) : Bool :=
  let opp := color.other
  let classical := (List.range 8).any fun r =>
    (List.range 8).any fun c =>
      match bget s.board (r : Int) (c : Int) with
      | some piece =>
        decide (piece.color = opp) &&
          !(s.split_manager.is_split_piece ((r : Int), (c : Int))) &&
          posMem (row, col) (get_valid_moves_simple (setTurn s opp) (c : Int) (r : Int))
      | none => false
  let quantum := s.split_manager.get_split_positions.any fun group =>
    group.any fun pp =>
      decide (pp.2.color = opp) &&
        posMem (row, col)
          (get_valid_moves_simple
            (setTurn (setBoard s (hypoBoard s.board group pp.1 pp.2)) opp)
            pp.1.2 pp.1.1)
  classical || quantum

/-- The king search of Python `ChessGame.is_in_check`: the inner `break`
only leaves the column loop, so the result is the first-column king of the
last row containing one. -/
def find_king (s : GameState) (color : Color) : Option Pos :=
  (List.range 8).foldl
    (fun acc r =>
      match (List.range 8).find? (fun c =>
          decide (bget s.board (r : Int) (c : Int) = some ⟨color, Kind.k⟩)) with
      | some c => some ((r : Int), (c : Int))
      | none => acc) none

/-- Python `ChessGame.is_in_check` with `simple=True`: no cache read or
write, no collapse: answer against the live board; `False` when the king
is missing. -/
def is_in_check_simple (s : GameState) (color : Color) : Bool :=
  match find_king s color with
  | none => false
  | some kp => is_square_attacked_simple s kp.1 kp.2 color

/-- Python `ChessGame.can_castle`.  Returns the answer together with the
updated state: the source persists the computed per-side eligibility into
`castling[turn]['king']` / `['queen']` (setting a side to `True` when it is
eligible now, resetting both to `False` only when neither side is), which
`get_king_moves` reads afterwards.  An empty origin square would raise
IndexError in Python (`''[1]`); it is modelled as the not-a-king early
return, and the verified paths always have a piece at the origin. -/
def can_castle (s : GameState) (row col : Int) : Bool × GameState :=
  let notKing : Bool :=
    match bget s.board row col with
    | some piece => decide (piece.kind ≠ Kind.k)
    | none => true
  if notKing || (!(s.castling s.turn).king_nm && !(s.castling s.turn).queen_nm) then
    (false, s)
  else if is_in_check_simple s s.turn then (false, s)
  else
    let ks : Bool := (s.castling s.turn).king_nm &&
      (bget s.board row (col + 1)).isNone && (bget s.board row (col + 2)).isNone &&
      !(is_square_attacked_simple s row (col + 1) s.turn) &&
      !(is_square_attacked_simple s row (col + 2) s.turn)
    let qs : Bool := (s.castling s.turn).queen_nm &&
      (bget s.board row (col - 1)).isNone && (bget s.board row (col - 2)).isNone &&
      (bget s.board row (col - 3)).isNone &&
      !(is_square_attacked_simple s row (col - 1) s.turn) &&
      !(is_square_attacked_simple s row (col - 2) s.turn)
    let ci := s.castling s.turn
    if ks || qs then
      (true, setCastling s s.turn
        { ci with king := if ks then true else ci.king,
                  queen := if qs then true else ci.queen })
    else
      (false, setCastling s s.turn { ci with king := false, queen := false })

/-- Python `ChessGame.get_king_moves` with `simple=False`: the adjacent
steps plus, when a never-moved flag is set and `can_castle` affirms,
the castling destinations gated by the (just recomputed) eligibility
flags.  Returns the state updated by `can_castle`. -/
def get_king_moves_ns (s : GameState) (row col : Int) : List Pos × GameState :=
  let adj := kingAdjacent s row col
  if (s.castling s.turn).king_nm || (s.castling s.turn).queen_nm then
    let res := can_castle s row col
    let s' := res.2
    if res.1 then
      (adj ++ (if (s'.castling s'.turn).king then [((row, col + 2) : Pos)] else []) ++
        (if (s'.castling s'.turn).queen then [((row, col - 2) : Pos)] else []), s')
    else (adj, s')
  else (adj, s)

/-- Python `ChessGame.is_legal_move`: simulate the move by mutating the
board, query `is_in_check(turn, simple=True)`, restore the board; when the
mover started in check the same simulation is repeated to test whether the
check persists.  All mutations are unwound, so the embedding is a pure
Bool. -/
def is_legal_move (s : GameState) (from_row from_col to_row to_col : Int) : Bool :=
  if s.game_over || s.edit_mode then false
  else
    let piece := bget s.board from_row from_col
    -- (the saved `captured = board[to]` of the source is only used to
    -- restore the board, which the pure embedding does not need)
    let moved := bset (bset s.board (to_row, to_col) piece) (from_row, from_col) none
    let in_check_after_move := is_in_check_simple (setBoard s moved) s.turn
    let in_check_before := is_in_check_simple s s.turn
    if in_check_before then
      let moved2 := bset (bset s.board (to_row, to_col) piece) (from_row, from_col) none
      let still_in_check := is_in_check_simple (setBoard s moved2) s.turn
      !still_in_check
    else !in_check_after_move

/-- Python `ChessGame.get_valid_moves` with `simple=False`: ownership
check against `turn`, per-kind generation (king including castling, which
updates the castling flags), then the legality filter.  Returns the state
updated by `can_castle` when the piece was a king. -/
def get_valid_moves_ns (s : GameState) (col row : Int) : List Pos × GameState :=
  if s.game_over || s.edit_mode then ([], s)
  else
    match bget s.board row col with
    | none => ([], s)
    | some piece =>
      if piece.color ≠ s.turn then ([], s)
      else
        let gen : List Pos × GameState :=
          match piece.kind with
          | .p => (get_pawn_moves s row col, s)
          | .n => (get_knight_moves s row col, s)
          | .b => (get_bishop_moves s row col, s)
          | .r => (get_rook_moves s row col, s)
          | .q => (get_queen_moves s row col, s)
          | .k => get_king_moves_ns s row col
        let legal := gen.1.filter fun mv => is_legal_move gen.2 row col mv.1 mv.2
        (legal, gen.2)

/-- Python `ChessGame.is_in_check` with `simple=False`: cached answer if
present; `False` (without touching the cache) when the king is missing;
otherwise non-simple attack detection, and on an affirmative answer a
forced collapse of every unmeasured subsystem folded into the board plus a
cache invalidation; finally the just-computed answer is stored in the
queried color's cache slot. -/
def is_in_check_ns (s : GameState) (oracle : Oracle) (color : Color) :
    Bool × GameState :=
  match s.check_cache color with
  | some v => (v, s)
  | none =>
    match find_king s color with
    | none => (false, s)
    | some kp =>
      let in_check := is_square_attacked s kp.1 kp.2 color
      let s1 :=
        if in_check then
          let m1 := s.split_manager.collapse_all oracle
          let res := m1.apply_collapse_to_board s.board none
          invalidate_check_cache (setBoard { s with split_manager := res.2 } res.1)
        else s
      (in_check, setCache s1 color (some in_check))

/-- The row-major search of Python `is_checkmate` / `is_stalemate` for a
piece of `color` with at least one generated-and-legal move.  The early
`return False` of the source is modelled by the accumulator short-circuit:
once a legal move is found no further square mutates the state. -/
def squaresRM : List (Nat × Nat) :=
  (List.range 8).foldr (fun r acc => (List.range 8).map (fun c => (r, c)) ++ acc)
    ([] : List (Nat × Nat))

/-- One square of the `escape_scan` loop below. -/
def escape_step (color : Color) (acc : Bool × GameState) (rc : Nat × Nat) :
    Bool × GameState :=
  if acc.1 then acc
  else
    let s := acc.2
    let row : Int := rc.1
    let col : Int := rc.2
    match bget s.board row col with
    | some piece =>
      if piece.color = color then
        let res := get_valid_moves_ns s col row
        if res.1.isEmpty then (false, res.2)
        else
          (res.1.any fun mv => is_legal_move res.2 row col mv.1 mv.2, res.2)
      else (false, s)
    | none => (false, s)

def escape_scan (s0 : GameState) (color : Color) : Bool × GameState :=
  squaresRM.foldl (escape_step color) (false, s0)

/-- Python `ChessGame.is_checkmate`. -/
def is_checkmate (s : GameState) (oracle : Oracle) (color : Color) :
    Bool × GameState :=
  let chk := is_in_check_ns s oracle color
  if !chk.1 then (false, chk.2)
  else
    let esc := escape_scan chk.2 color
    (!esc.1, esc.2)

/-- Python `ChessGame.is_stalemate`. -/
def is_stalemate (s : GameState) (oracle : Oracle) (color : Color) :
    Bool × GameState :=
  let chk := is_in_check_ns s oracle color
  if chk.1 then (false, chk.2)
  else
    let esc := escape_scan chk.2 color
    (!esc.1, esc.2)

/-- The checkmate/stalemate evaluation performed for the new side to move
at every completed (or fizzled/rejected) half-move of
`ChessGame.make_move`. -/
def end_of_move_eval (s : GameState) (oracle : Oracle) : GameState :=
  let cm := is_checkmate s oracle s.turn
  if cm.1 then { cm.2 with game_over := true, draw_by_stalemate := false }
  else
    let sm := is_stalemate cm.2 oracle cm.2.turn
    if sm.1 then { sm.2 with game_over := true, draw_by_stalemate := true }
    else sm.2

/-- Stages of `ChessGame.make_move` from the en-passant handling ("Handle
en passant capture") to the end of the method, entered with the state left
by the target handling: en-passant capture, performing the move (normal or
split), castling rook move, promotion suspension, state update, and the
final checkmate/stalemate evaluation. -/
def make_move_rest (s2 : GameState) (oracle : Oracle)
    (from_row from_col to_row to_col : Int) (piece : Piece)
    (target_piece : Option Piece) (is_en_passant : Prop)
    [Decidable is_en_passant] : GameState :=
  -- Handle en passant capture.
  let s3 :=
    if is_en_passant then
      let capture_row := to_row + (if s2.turn = Color.w then 1 else -1)
      let captured_piece := bget s2.board capture_row to_col
      let s3a :=
        if s2.split_manager.is_split_piece (capture_row, to_col) then
          match s2.split_manager.global_position_map (capture_row, to_col) with
          | none => s2
          | some e =>
            let m2 := s2.split_manager.collapse_qubit oracle e.subIdx
            match m2.getQubit e.subIdx e.qubitIdx with
            | none => s2
            | some qb =>
              let real := if qb.collapsed_result = some BranchTag.a then qb.branch_a
                else qb.branch_b
              let res := m2.apply_collapse_to_board s2.board
                (some (e.subIdx, e.qubitIdx))
              let s2' := setBoard { s2 with split_manager := res.2 } res.1
              if real.pos = (capture_row, to_col) then
                match captured_piece with
                | some cp => addCaptured s2' s2'.turn cp
                | none => s2'
              else s2'
        else
          match captured_piece with
          | some cp => addCaptured s2 s2.turn cp
          | none => s2
      setBoard s3a (bset s3a.board (capture_row, to_col) none)
    else s2
  -- Perform the move.
  let s4 :=
    if !s3.split_mode then
      setBoard s3
        (bset (bset s3.board (from_row, from_col) none) (to_row, to_col)
          (some piece))
    else
      let bo := bset (bset s3.board (from_row, from_col) (some piece))
        (to_row, to_col) (some piece)
      let sm := s3.split_manager.create_split_qubit (from_row, from_col)
        (to_row, to_col) piece
      setBoard { s3 with split_manager := sm } bo
  -- Handle castling (move the rook).
  let s5 :=
    if piece.kind = Kind.k ∧ (to_col - from_col = 2 ∨ from_col - to_col = 2) then
      if to_col > from_col then
        setBoard s4
          (bset (bset s4.board (from_row, 7) none) (from_row, 5)
            (some ⟨s4.turn, Kind.r⟩))
      else
        setBoard s4
          (bset (bset s4.board (from_row, 0) none) (from_row, 3)
            (some ⟨s4.turn, Kind.r⟩))
    else s4
  -- Handle promotion: suspend, leaving turn, split_mode, history
  -- and the check cache untouched.
  if piece.kind = Kind.p ∧ (to_row = 0 ∨ to_row = 7) then
    { s5 with promotion_pending := true, promotion_pos := some (to_row, to_col) }
  else
    -- Update game state.
    let ep : Option Pos :=
      if piece.kind = Kind.p ∧ (to_row - from_row = 2 ∨ from_row - to_row = 2) then
        some (from_row + (to_row - from_row) / 2, from_col)
      else none
    let s6 := { s5 with en_passant := ep }
    let s7 :=
      if piece.kind = Kind.k then
        setCastling s6 s6.turn
          { s6.castling s6.turn with king_nm := false, queen_nm := false }
      else s6
    let s8 :=
      if piece.kind = Kind.r then
        if from_col = 0 then
          setCastling s7 s7.turn
            { s7.castling s7.turn with queen_nm := false }
        else if from_col = 7 then
          setCastling s7 s7.turn
            { s7.castling s7.turn with king_nm := false }
        else s7
      else s7
    let hist := s8.history ++
      [⟨from_row, from_col, to_row, to_col, piece, target_piece⟩]
    let s9 :=
      { s8 with turn := s8.turn.other, split_mode := false, history := hist }
    end_of_move_eval (invalidate_check_cache s9) oracle

/-- Python `ChessGame.make_move`.  An empty origin square would raise
IndexError in Python at the `piece[1]` read on line 672 and is modelled as
a no-op; every verified path has a piece at the origin.  The intermediate
`Sum` values separate the source's early `return`s (`inr` : the method
returned) from fall-through (`inl` : execution continues). -/
def make_move (s : GameState) (oracle : Oracle)
    (from_row from_col to_row to_col : Int) : GameState :=
  if s.game_over || s.edit_mode then s
  else
    match bget s.board from_row from_col with
    | none => s
    | some piece0 =>
      let target_piece := bget s.board to_row to_col
      let is_split_to := s.split_manager.is_split_piece (to_row, to_col)
      let is_en_passant := piece0.kind = Kind.p ∧ s.en_passant = some (to_row, to_col)
      -- Handle moving a split piece (origin is a live branch).
      let step1 : (GameState × Piece) ⊕ GameState :=
        match s.split_manager.global_position_map (from_row, from_col) with
        | none => Sum.inl (s, piece0)
        | some e =>
          let m1 := s.split_manager.collapse_qubit oracle e.subIdx
          match m1.getQubit e.subIdx e.qubitIdx with
          | none => Sum.inl (s, piece0)
          | some qb =>
            let real := if qb.collapsed_result = some BranchTag.a then qb.branch_a
              else qb.branch_b
            let res := m1.apply_collapse_to_board s.board (some (e.subIdx, e.qubitIdx))
            if real.pos ≠ (from_row, from_col) then
              let s' := invalidate_check_cache
                (setBoard { s with split_manager := res.2 }
                  (bset res.1 (from_row, from_col) none))
              Sum.inr (end_of_move_eval (setTurn s' s'.turn.other) oracle)
            else
              Sum.inl
                (setBoard { s with split_manager := res.2 }
                  (bset res.1 (from_row, from_col) none), real.piece_type)
      match step1 with
      | Sum.inr done => done
      | Sum.inl s1piece =>
        let s1 := s1piece.1
        let piece := s1piece.2
        -- Handle target position.
        let step2 : GameState ⊕ GameState :=
          match target_piece with
          | none => Sum.inl s1
          | some tp =>
            if tp.color = s1.turn then
              if is_split_to then
                match s1.split_manager.global_position_map (to_row, to_col) with
                | none => Sum.inl s1
                | some e =>
                  let m2 := s1.split_manager.collapse_qubit oracle e.subIdx
                  match m2.getQubit e.subIdx e.qubitIdx with
                  | none => Sum.inl s1
                  | some qb =>
                    let real := if qb.collapsed_result = some BranchTag.a then qb.branch_a
                      else qb.branch_b
                    let res := m2.apply_collapse_to_board s1.board
                      (some (e.subIdx, e.qubitIdx))
                    let s2 := setBoard { s1 with split_manager := res.2 } res.1
                    if real.pos = (to_row, to_col) then
                      let s3 := setTurn (invalidate_check_cache s2) s2.turn.other
                      Sum.inr (end_of_move_eval s3 oracle)
                    else Sum.inl s2
              else Sum.inr s1
            else
              if is_split_to then
                match s1.split_manager.global_position_map (to_row, to_col) with
                | none => Sum.inl s1
                | some e =>
                  let m2 := s1.split_manager.collapse_qubit oracle e.subIdx
                  match m2.getQubit e.subIdx e.qubitIdx with
                  | none => Sum.inl s1
                  | some qb =>
                    let real := if qb.collapsed_result = some BranchTag.a then qb.branch_a
                      else qb.branch_b
                    let res := m2.apply_collapse_to_board s1.board
                      (some (e.subIdx, e.qubitIdx))
                    let s2 := setBoard { s1 with split_manager := res.2 } res.1
                    if real.pos = (to_row, to_col) then
                      Sum.inl (addCaptured s2 s2.turn tp)
                    else Sum.inl s2
              else Sum.inl (addCaptured s1 s1.turn tp)
        match step2 with
        | Sum.inr done => done
        | Sum.inl s2 =>
          make_move_rest s2 oracle from_row from_col to_row to_col piece
            target_piece is_en_passant

/-! ### Specification-side definitions

These restate, in the spec's own vocabulary, the properties the claims
assert about the code; the claim theorems below relate them to the
embedded source functions. -/

/-- A square is within the 8×8 board. -/
def inBounds (p : Pos) : Prop := 0 ≤ p.1 ∧ p.1 < 8 ∧ 0 ≤ p.2 ∧ p.2 < 8

/-- Spec side of C1: some classical (non-split) enemy piece attacks the
square on the current board, attack being simple move generation with the
attacker to move. -/
def classicalAttacker (s : GameState) (row col : Int) (color : Color) : Prop :=
  ∃ r c : Nat, r < 8 ∧ c < 8 ∧ ∃ piece : Piece,
    bget s.board (r : Int) (c : Int) = some piece ∧
    piece.color = color.other ∧
    s.split_manager.global_position_map ((r : Int), (c : Int)) = none ∧
    (row, col) ∈ get_valid_moves_simple (setTurn s color.other) (c : Int) (r : Int)

/-- Spec side of C1: the hypothetical board in which one branch's piece is
real at its square and every sibling branch square of the same subsystem
group is emptied (clearing wins when a square both carries the chosen
branch and is a sibling square, matching the source's write order). -/
def specHypoBoard (bo : Board) (group : List (Pos × Piece)) (pos : Pos)
    (piece : Piece) : Board :=
  fun qp =>
    if group.any (fun op => decide (op.1 ≠ pos) && decide (normPos op.1 = qp)) then none
    else if qp = normPos pos then some piece
    else bo qp

/-- Spec side of C1: some single live branch of some unmeasured enemy
subsystem attacks the square on its hypothetical board. -/
def branchAttacker (s : GameState) (row col : Int) (color : Color) : Prop :=
  ∃ group ∈ s.split_manager.get_split_positions, ∃ pp ∈ group,
    (pp : Pos × Piece).2.color = color.other ∧
    (row, col) ∈ get_valid_moves_simple
      (setTurn (setBoard s (specHypoBoard s.board group pp.1 pp.2)) color.other)
      pp.1.2 pp.1.1

/-- Spec side of C8: the kingside eligibility test (never-moved flag, empty
squares between king and rook, transited squares including the destination
not attacked), recomputed from scratch. -/
def kingside_ok (s : GameState) (row col : Int) : Bool :=
  (s.castling s.turn).king_nm &&
    (bget s.board row (col + 1)).isNone && (bget s.board row (col + 2)).isNone &&
    !(is_square_attacked_simple s row (col + 1) s.turn) &&
    !(is_square_attacked_simple s row (col + 2) s.turn)

/-- Spec side of C8: the queenside eligibility test. -/
def queenside_ok (s : GameState) (row col : Int) : Bool :=
  (s.castling s.turn).queen_nm &&
    (bget s.board row (col - 1)).isNone && (bget s.board row (col - 2)).isNone &&
    (bget s.board row (col - 3)).isNone &&
    !(is_square_attacked_simple s row (col - 1) s.turn) &&
    !(is_square_attacked_simple s row (col - 2) s.turn)

/-- Spec side of C8: the castling answer recomputed purely from the
never-moved flags, the current check status, the emptiness of the
in-between squares and the non-attacked status of the transited squares —
in particular it never reads the persisted `king`/`queen` eligibility
flags. -/
def can_castle_answer (s : GameState) (row col : Int) : Bool :=
  (match bget s.board row col with
   | some piece => decide (piece.kind = Kind.k)
   | none => false) &&
  ((s.castling s.turn).king_nm || (s.castling s.turn).queen_nm) &&
  !(is_in_check_simple s s.turn) &&
  (kingside_ok s row col || queenside_ok s row col)

/-! ### Concrete fixtures used by counterexamples and witnesses -/

def wp : Piece := ⟨Color.w, Kind.p⟩
def wn : Piece := ⟨Color.w, Kind.n⟩
def wr : Piece := ⟨Color.w, Kind.r⟩
def wk : Piece := ⟨Color.w, Kind.k⟩
def bn : Piece := ⟨Color.b, Kind.n⟩
def br : Piece := ⟨Color.b, Kind.r⟩
def bk : Piece := ⟨Color.b, Kind.k⟩

/-- A constant measurement sample / oracle: every qubit measures bit 0
(branch `a`). -/
def oracleA : Oracle := fun _ _ => BranchTag.a

/-- C2 fixture: a subsystem holding a root qubit (squares (0,0)/(0,1)) and
a child qubit chained at (0,1), conditioned on the parent's branch `b`,
with squares (0,1)/(0,2) — built through `add_split_qubit` exactly as
`create_split_qubit` chains a split of an already-split piece. -/
def c2sub : QuantumSubsystem :=
  let s0 : QuantumSubsystem := ⟨[], [], false⟩
  let r1 := s0.add_split_qubit ⟨(0, 0), wn⟩ ⟨(0, 1), wn⟩ none
  let r2 := r1.1.add_split_qubit ⟨(0, 1), wn⟩ ⟨(0, 2), wn⟩ (some (r1.2, BranchTag.b))
  r2.1

/-- C4 fixture: white king on (7,4) checked by a black rook on (0,4),
empty check cache, no subsystems. -/
def c4state : GameState := baseState (boardOf [((7, 4), wk), ((0, 4), br)])

/-- C8 fixture: white king on (7,4), kingside rook on (7,7), clear path,
kingside never-moved flag set, current-eligibility flags clear. -/
def c8state : GameState :=
  { baseState (boardOf [((7, 4), wk), ((7, 7), wr)]) with
    castling := fun _ => ⟨false, false, true, false⟩ }

/-- C9 fixture: no white king anywhere, but a stale `True` in the white
check-cache slot. -/
def c9state : GameState :=
  { baseState (boardOf []) with
    check_cache := fun c => if c = Color.w then some true else none }

/-- C10 fixture: a white king placed (via edit mode) on (7,1) with the
queenside never-moved flag still set and nothing else on the board. -/
def c10state : GameState :=
  { baseState (boardOf [((7, 1), wk)]) with
    castling := fun _ => ⟨false, false, false, true⟩ }

/-- C7 counterexample fixture: a white pawn already split between (1,3)
and (3,3) (one root qubit), split mode active. -/
def c7state : GameState :=
  { baseState (boardOf [((1, 3), wp), ((3, 3), wp)]) with
    split_mode := true,
    split_manager := emptyManager.create_split_qubit (1, 3) (3, 3) wp }


/-- C4 counterexample fixture: a black rook split between (0,0) (branch a)
and (0,4) (branch b) — branch b gives check to the white king on (7,4). -/
def c4qstate : GameState :=
  { baseState (boardOf [((7, 4), wk), ((0, 0), br), ((0, 4), br)]) with
    split_manager := emptyManager.create_split_qubit (0, 0) (0, 4) br }

/-- C6 fixture qubit: a black knight split between (4,4) (branch a) and
(2,3) (branch b), a root qubit. -/
def c6q : SplitQubit := ⟨⟨(4, 4), bn⟩, ⟨(2, 3), bn⟩, none, none⟩

/-- C6 fixture subsystem: the single root qubit, unmeasured. -/
def c6sub : QuantumSubsystem := ⟨[c6q], [], false⟩

/-- C6 fixture: a white rook on (4,0) and the split knight's two branch
squares on the board, the global map pointing both at the qubit. -/
def c6state : GameState :=
  { baseState (boardOf [((4, 0), wr), ((4, 4), bn), ((2, 3), bn)]) with
    split_manager :=
      ⟨[c6sub],
        mupdate (mupdate (fun _ => none) (4, 4) (some ⟨0, 0, BranchTag.a⟩))
          (2, 3) (some ⟨0, 0, BranchTag.b⟩)⟩ }

/-- C7 witness fixture: a white pawn on (4,3) with both kings on the
board, split mode armed. -/
def c7wstate : GameState :=
  { baseState (boardOf [((4, 3), wp), ((7, 4), wk), ((0, 4), bk)]) with
    split_mode := true }

/-- The oracle-independent identity of a subsystem's qubits: branch pair
and parent link of each, in order.  `collapse` rewrites only
`collapsed_result`, `result_map` and `measured`, so this projection is
stable under measurement. -/
def subSkel (su : QuantumSubsystem) :
    List (SplitBranch × SplitBranch × Option (Nat × BranchTag)) :=
  su.split_qubits.map fun q => (q.branch_a, q.branch_b, q.parent)

/-- The state entering the closing checkmate/stalemate evaluation of a
split-mode move with no en-passant capture, no castling rook move and no
promotion (the `else` spine of `make_move_rest` for an empty destination):
piece written at origin and destination, split qubit created, en-passant
square and castling flags updated, turn flipped, split flag cleared, move
recorded, check cache invalidated. -/
def split_move_state (s2 : GameState) (from_row from_col to_row to_col : Int)
    (piece : Piece) : GameState :=
  let bo := bset (bset s2.board (from_row, from_col) (some piece))
    (to_row, to_col) (some piece)
  let sm := s2.split_manager.create_split_qubit (from_row, from_col)
    (to_row, to_col) piece
  let s4 := setBoard { s2 with split_manager := sm } bo
  let ep : Option Pos :=
    if piece.kind = Kind.p ∧ (to_row - from_row = 2 ∨ from_row - to_row = 2) then
      some (from_row + (to_row - from_row) / 2, from_col)
    else none
  let s6 := { s4 with en_passant := ep }
  let s7 :=
    if piece.kind = Kind.k then
      setCastling s6 s6.turn
        { s6.castling s6.turn with king_nm := false, queen_nm := false }
    else s6
  let s8 :=
    if piece.kind = Kind.r then
      if from_col = 0 then
        setCastling s7 s7.turn { s7.castling s7.turn with queen_nm := false }
      else if from_col = 7 then
        setCastling s7 s7.turn { s7.castling s7.turn with king_nm := false }
      else s7
    else s7
  let hist := s8.history ++
    [⟨from_row, from_col, to_row, to_col, piece, none⟩]
  let s9 :=
    { s8 with turn := s8.turn.other, split_mode := false, history := hist }
  invalidate_check_cache s9

/-- `s'` differs from `s` at most in the castling record (the only state
`can_castle` and the functions built on it may write). -/
def castlingOnly (s s' : GameState) : Prop :=
  s' = { s with castling := s'.castling }

/-- `s'` differs from `s` at most in board, split manager and check cache
(the only state a non-simple `is_in_check` may write). -/
def checkOnly (s s' : GameState) : Prop :=
  s' =
    { s with
      board := s'.board
      split_manager := s'.split_manager
      check_cache := s'.check_cache }

/-! ### Helper lemmas -/

theorem Color.other_ne (c : Color) : c.other ≠ c := by cases c <;> decide

theorem can_castle_answer_eq (s : GameState) (row col : Int) :
    (can_castle s row col).1 = can_castle_answer s row col := by
  unfold can_castle can_castle_answer kingside_ok queenside_ok
  rcases hbo : bget s.board row col with _ | piece
  · simp
  · by_cases hk : piece.kind = Kind.k
    · simp only [hk, decide_not]
      split_ifs <;> simp_all
    · simp [hk]

theorem can_castle_snd_cases (s : GameState) (row col : Int) :
    (can_castle s row col).2 = s ∨
    ∃ ci : CastlingInfo, (can_castle s row col).2 = setCastling s s.turn ci ∧
      ci.king_nm = (s.castling s.turn).king_nm ∧
      ci.queen_nm = (s.castling s.turn).queen_nm := by
  unfold can_castle
  rcases hbo : bget s.board row col with _ | piece <;> simp only [hbo] <;>
    split_ifs <;>
      first
        | exact Or.inl rfl
        | exact Or.inr ⟨_, rfl, rfl, rfl⟩

theorem can_castle_state_frame (s : GameState) (row col : Int) :
    (can_castle s row col).2.board = s.board ∧
    (can_castle s row col).2.turn = s.turn ∧
    (can_castle s row col).2.captured = s.captured ∧
    (can_castle s row col).2.en_passant = s.en_passant ∧
    (can_castle s row col).2.history = s.history ∧
    (can_castle s row col).2.promotion_pending = s.promotion_pending ∧
    (can_castle s row col).2.promotion_pos = s.promotion_pos ∧
    (can_castle s row col).2.check_cache = s.check_cache ∧
    (can_castle s row col).2.game_over = s.game_over ∧
    (can_castle s row col).2.edit_mode = s.edit_mode ∧
    (can_castle s row col).2.draw_by_stalemate = s.draw_by_stalemate ∧
    (can_castle s row col).2.split_mode = s.split_mode ∧
    (can_castle s row col).2.split_manager = s.split_manager ∧
    (can_castle s row col).2.castling s.turn.other = s.castling s.turn.other ∧
    ((can_castle s row col).2.castling s.turn).king_nm = (s.castling s.turn).king_nm ∧
    ((can_castle s row col).2.castling s.turn).queen_nm = (s.castling s.turn).queen_nm := by
  rcases can_castle_snd_cases s row col with h | ⟨ci, h, hk, hq⟩
  · rw [h]
    simp
  · rw [h]
    simp [setCastling, Color.other_ne s.turn, hk, hq]

theorem can_castle_flags (s : GameState) (row col : Int)
    (h : can_castle_answer s row col = true) :
    ((can_castle s row col).2.castling s.turn).king =
      (kingside_ok s row col || (s.castling s.turn).king) ∧
    ((can_castle s row col).2.castling s.turn).queen =
      (queenside_ok s row col || (s.castling s.turn).queen) := by
  unfold can_castle_answer at h
  unfold can_castle
  rcases hbo : bget s.board row col with _ | piece <;> simp only [hbo] at h ⊢
  · simp at h
  · by_cases hk : piece.kind = Kind.k
    · simp only [hk] at h ⊢
      split_ifs <;> simp_all [setCastling, kingside_ok, queenside_ok]
    · simp [hk] at h

theorem collapse_measured (s : QuantumSubsystem) (f : Nat → BranchTag) :
    (s.collapse f).measured = true := by
  unfold QuantumSubsystem.collapse
  split
  · assumption
  · rfl

theorem collapse_of_measured (s : QuantumSubsystem) (f : Nat → BranchTag)
    (h : s.measured = true) : s.collapse f = s := by
  unfold QuantumSubsystem.collapse
  simp [h]

/-! ### Claim C3 -/

/-- C3: collapse is idempotent and calls the measurement oracle at most
once per subsystem: after any `collapse s f`, the `measured` flag is set,
and a second `collapse` with an arbitrary fresh sample `g` returns the
identical subsystem — in particular the identical cached `result_map` —
without consuming `g`. -/
theorem C3_collapse_idempotent (s : QuantumSubsystem) (f g : Nat → BranchTag) :
    (s.collapse f).measured = true ∧
    (s.collapse f).collapse g = s.collapse f ∧
    ((s.collapse f).collapse g).result_map = (s.collapse f).result_map := by
  refine ⟨collapse_measured s f, ?_, ?_⟩
  · exact collapse_of_measured _ g (collapse_measured s f)
  · rw [collapse_of_measured _ g (collapse_measured s f)]

/-! ### Claim C2 -/

/-- C2 (code bug): with the circuit-consistent joint sample that realizes
the parent's branch `a` — so that the child qubit (conditioned on the
parent's branch `b`) deterministically measures `a` — `apply_to_board`
still writes the child's piece at the child's collapsed branch (0,1), even
though the parent's realized outcome is not the branch the child is
conditioned on.  The knight ends up on both (0,0) (the parent's real
square) and (0,1), duplicating the piece. -/
theorem C2_code_bug_eval :
    sampleConsistent c2sub.split_qubits (fun _ => BranchTag.a) ∧
    ((c2sub.collapse fun _ => BranchTag.a).split_qubits.get? 0).map
        SplitQubit.collapsed_result = some (some BranchTag.a) ∧
    (c2sub.split_qubits.get? 1).map SplitQubit.parent =
      some (some (0, BranchTag.b)) ∧
    (c2sub.apply_to_board (fun _ => BranchTag.a) (boardOf []) none).2 (0, 1) =
      some wn ∧
    (c2sub.apply_to_board (fun _ => BranchTag.a) (boardOf []) none).2 (0, 0) =
      some wn ∧
    (c2sub.apply_to_board (fun _ => BranchTag.a) (boardOf []) none).2 (0, 2) =
      none :=
  ⟨fun _ _ _ _ _ _ _ => rfl, by decide, by decide, by decide, by decide, by decide⟩

/-! ### Claim C9 -/

theorem is_in_check_ns_no_king (s : GameState) (o : Oracle) (color : Color)
    (hc : s.check_cache color = none) (hk : find_king s color = none) :
    is_in_check_ns s o color = (false, s) := by
  unfold is_in_check_ns
  rw [hc, hk]

/-- C9 counterexample: with no white king on the board but a stale `True`
cached for white, the non-simple `is_in_check` returns the cached `True`
(the cache is consulted before the king search), not `False` as the claim
states for every state. -/
theorem C9_counterexample :
    find_king c9state Color.w = none ∧
    is_in_check_ns c9state oracleA Color.w = (true, c9state) := by
  exact ⟨by decide, rfl⟩

/-- C9 amended: if no king of the color is on the board, simple
`is_in_check` returns `False`, and non-simple `is_in_check` returns
`False` with the state untouched (hence no subsystem collapse) provided
the color's check-cache slot is empty; a cached value short-circuits the
king search. -/
theorem C9_no_king_in_check_false (s : GameState) (o : Oracle) (color : Color)
    (hk : find_king s color = none) :
    is_in_check_simple s color = false ∧
    (s.check_cache color = none → is_in_check_ns s o color = (false, s)) := by
  constructor
  · unfold is_in_check_simple
    rw [hk]
  · intro hc
    exact is_in_check_ns_no_king s o color hc hk

/-- C9 witness: the empty board has no white king; the theorem applies and
its hypotheses hold there. -/
theorem C9_witness :
    find_king (baseState (boardOf [])) Color.w = none ∧
    (is_in_check_simple (baseState (boardOf [])) Color.w = false ∧
      ((baseState (boardOf [])).check_cache Color.w = none →
        is_in_check_ns (baseState (boardOf [])) oracleA Color.w =
          (false, baseState (boardOf [])))) :=
  ⟨by decide, C9_no_king_in_check_false (baseState (boardOf [])) oracleA Color.w
    (by decide)⟩

/-! ### Claim C8 -/

/-- C8 counterexample: with the white king on (7,4), a never-moved rook on
(7,7) and a clear, unattacked path, `can_castle` answers `True` and
persistently sets the kingside eligibility flag `castling['w']['king']`
from `False` to `True` — the game state observable after the call differs
from the state before it, refuting the no-persistence part of the claim. -/
theorem C8_counterexample :
    (can_castle c8state 7 4).1 = true ∧
    ((can_castle c8state 7 4).2.castling Color.w).king = true ∧
    (c8state.castling Color.w).king = false :=
  ⟨by decide, by decide, rfl⟩

/-- C8 amended: `can_castle` recomputes its answer on every call purely
from the never-moved flags, the king's current check status, the emptiness
of the squares between king and rook, and the non-attacked status of the
transited squares including the destination (`can_castle_answer` reads
exactly those inputs and not the persisted eligibility flags); everything
in the game state except the current side's `king`/`queen` eligibility
flags is left unchanged; and on an affirmative answer the computed
per-side eligibilities are persisted into those two flags (read afterwards
by king move generation). -/
theorem C8_can_castle_recompute_persist (s : GameState) (row col : Int) :
    (can_castle s row col).1 = can_castle_answer s row col ∧
    (can_castle s row col).2.board = s.board ∧
    (can_castle s row col).2.turn = s.turn ∧
    (can_castle s row col).2.captured = s.captured ∧
    (can_castle s row col).2.en_passant = s.en_passant ∧
    (can_castle s row col).2.history = s.history ∧
    (can_castle s row col).2.promotion_pending = s.promotion_pending ∧
    (can_castle s row col).2.promotion_pos = s.promotion_pos ∧
    (can_castle s row col).2.check_cache = s.check_cache ∧
    (can_castle s row col).2.game_over = s.game_over ∧
    (can_castle s row col).2.edit_mode = s.edit_mode ∧
    (can_castle s row col).2.draw_by_stalemate = s.draw_by_stalemate ∧
    (can_castle s row col).2.split_mode = s.split_mode ∧
    (can_castle s row col).2.split_manager = s.split_manager ∧
    (can_castle s row col).2.castling s.turn.other = s.castling s.turn.other ∧
    ((can_castle s row col).2.castling s.turn).king_nm = (s.castling s.turn).king_nm ∧
    ((can_castle s row col).2.castling s.turn).queen_nm = (s.castling s.turn).queen_nm ∧
    (can_castle_answer s row col = true →
      ((can_castle s row col).2.castling s.turn).king =
        (kingside_ok s row col || (s.castling s.turn).king) ∧
      ((can_castle s row col).2.castling s.turn).queen =
        (queenside_ok s row col || (s.castling s.turn).queen)) := by
  obtain ⟨h1, h2, h3, h4, h5, h6, h7, h8, h9, h10, h11, h12, h13, h14, h15, h16⟩ :=
    can_castle_state_frame s row col
  exact ⟨can_castle_answer_eq s row col, h1, h2, h3, h4, h5, h6, h7, h8, h9, h10,
    h11, h12, h13, h14, h15, h16, can_castle_flags s row col⟩

/-- C8 witness: at the `c8state` fixture the recompute equation holds, the
answer is affirmative, and the persisted flags match the computed
eligibilities. -/
theorem C8_witness :
    (can_castle c8state 7 4).1 = can_castle_answer c8state 7 4 ∧
    can_castle_answer c8state 7 4 = true ∧
    ((can_castle c8state 7 4).2.castling Color.w).king =
      (kingside_ok c8state 7 4 || (c8state.castling Color.w).king) :=
  ⟨(C8_can_castle_recompute_persist c8state 7 4).1, by decide,
    ((C8_can_castle_recompute_persist c8state 7 4).2.2.2.2.2.2.2.2.2.2.2.2.2.2.2.2.2
      (by decide)).1⟩

/-! ### Claim C10 -/

theorem mem_foldr_append {β : Type} (g : β → List Pos) (mv : Pos) :
    ∀ (xs : List β) (init : List Pos),
      mv ∈ xs.foldr (fun x acc => g x ++ acc) init →
      (∃ x, x ∈ xs ∧ mv ∈ g x) ∨ mv ∈ init := by
  intro xs
  induction xs with
  | nil => intro init h; exact Or.inr h
  | cons x xs ih =>
    intro init h
    rcases List.mem_append.mp h with h1 | h2
    · exact Or.inl ⟨x, List.mem_cons_self x xs, h1⟩
    · rcases ih init h2 with ⟨y, hy, hmy⟩ | hi
      · exact Or.inl ⟨y, List.mem_cons_of_mem x hy, hmy⟩
      · exact Or.inr hi

theorem mem_double_foldr {β : Type} (drs dcs : List β)
    (blk : β → β → List Pos) (mv : Pos) :
    ∀ init,
      mv ∈ drs.foldr
        (fun dr acc => dcs.foldr (fun dc acc2 => blk dr dc ++ acc2) acc) init →
      (∃ dr dc, dr ∈ drs ∧ dc ∈ dcs ∧ mv ∈ blk dr dc) ∨ mv ∈ init := by
  induction drs with
  | nil => intro init h; exact Or.inr h
  | cons x xs ih =>
    intro init h
    rcases mem_foldr_append (blk x) mv dcs _ h with ⟨dc, hdc, hm⟩ | h2
    · exact Or.inl ⟨x, dc, List.mem_cons_self x xs, hdc, hm⟩
    · rcases ih init h2 with ⟨dr, dc, hdr, hdc, hm⟩ | hi
      · exact Or.inl ⟨dr, dc, List.mem_cons_of_mem x hdr, hdc, hm⟩
      · exact Or.inr hi

theorem mem_match_block (s : GameState) (r c : Int) (mv : Pos)
    (hg : 0 ≤ r ∧ r < 8 ∧ 0 ≤ c ∧ c < 8)
    (h : mv ∈ (match bget s.board r c with
       | none => [((r, c) : Pos)]
       | some tp => if tp.color ≠ s.turn then [((r, c) : Pos)] else [])) :
    inBounds mv := by
  rcases hb : bget s.board r c with _ | tp <;> simp only [hb] at h
  · simp at h
    subst h
    exact ⟨hg.1, hg.2.1, hg.2.2.1, hg.2.2.2⟩
  · split_ifs at h
    · simp at h
      subst h
      exact ⟨hg.1, hg.2.1, hg.2.2.1, hg.2.2.2⟩
    · simp at h

theorem rayWalk_inBounds (s : GameState) (dr dc : Int) (mv : Pos) :
    ∀ (fuel : Nat) (r0 c0 : Int), mv ∈ rayWalk s dr dc fuel r0 c0 → inBounds mv := by
  intro fuel
  induction fuel with
  | zero =>
    intro r0 c0 h
    simp [rayWalk] at h
  | succ n ih =>
    intro r0 c0 h
    simp only [rayWalk] at h
    split_ifs at h with hg
    · rcases hb : bget s.board (r0 + dr) (c0 + dc) with _ | tp <;>
        simp only [hb] at h
      · rcases List.mem_cons.mp h with h1 | h2
        · subst h1
          exact ⟨hg.1, hg.2.1, hg.2.2.1, hg.2.2.2⟩
        · exact ih _ _ h2
      · split_ifs at h
        · simp at h
          subst h
          exact ⟨hg.1, hg.2.1, hg.2.2.1, hg.2.2.2⟩
        · simp at h
    · simp at h

theorem knight_inB (s : GameState) (row col : Int) (mv : Pos)
    (h : mv ∈ get_knight_moves s row col) : inBounds mv := by
  unfold get_knight_moves at h
  rcases mem_foldr_append _ mv _ _ h with ⟨od, _, hm⟩ | h2
  · split_ifs at hm with hg
    · exact mem_match_block s _ _ mv hg hm
    · simp at hm
  · simp at h2

theorem king_adj_inB (s : GameState) (row col : Int) (mv : Pos)
    (h : mv ∈ kingAdjacent s row col) : inBounds mv := by
  simp only [kingAdjacent] at h
  rcases mem_double_foldr _ _ _ mv _ h with ⟨dr, dc, _, _, hm⟩ | h2
  · split_ifs at hm with h0 hg
    · simp at hm
    · exact mem_match_block s _ _ mv hg hm
    · simp at hm
  · simp at h2

theorem bishop_inB (s : GameState) (row col : Int) (mv : Pos)
    (h : mv ∈ get_bishop_moves s row col) : inBounds mv := by
  unfold get_bishop_moves at h
  rcases mem_foldr_append _ mv _ _ h with ⟨dd, _, hm⟩ | h2
  · exact rayWalk_inBounds s dd.1 dd.2 mv 16 row col hm
  · simp at h2

theorem rook_inB (s : GameState) (row col : Int) (mv : Pos)
    (h : mv ∈ get_rook_moves s row col) : inBounds mv := by
  unfold get_rook_moves at h
  rcases mem_foldr_append _ mv _ _ h with ⟨dd, _, hm⟩ | h2
  · exact rayWalk_inBounds s dd.1 dd.2 mv 16 row col hm
  · simp at h2

theorem queen_inB (s : GameState) (row col : Int) (mv : Pos)
    (h : mv ∈ get_queen_moves s row col) : inBounds mv := by
  unfold get_queen_moves at h
  rcases List.mem_append.mp h with h1 | h1
  · exact rook_inB s row col mv h1
  · exact bishop_inB s row col mv h1

theorem pawn_inB (s : GameState) (row col : Int) (mv : Pos)
    (hc0 : 0 ≤ col) (hc8 : col < 8)
    (h : mv ∈ get_pawn_moves s row col) : inBounds mv := by
  simp only [get_pawn_moves] at h
  generalize hD : (if s.turn = Color.w then (-1 : Int) else 1) = d at h
  generalize hS : (if s.turn = Color.w then (6 : Int) else 1) = sr at h
  rcases List.mem_append.mp h with h1 | h1
  · split_ifs at h1 with hg1 hg2 hg3 hg4
    · rcases List.mem_cons.mp h1 with he | h2
      · subst he
        exact ⟨hg1.1, hg1.2, hc0, hc8⟩
      · simp only [List.mem_singleton] at h2
        subst h2
        exact ⟨hg3.2.1, hg3.2.2, hc0, hc8⟩
    · rcases List.mem_cons.mp h1 with he | h2
      · subst he
        exact ⟨hg1.1, hg1.2, hc0, hc8⟩
      · simp at h2
    · rcases List.mem_cons.mp h1 with he | h2
      · subst he
        exact ⟨hg1.1, hg1.2, hc0, hc8⟩
      · simp at h2
    · simp at h1
    · simp at h1
  · rcases mem_foldr_append _ mv _ _ h1 with ⟨dc, _, hm⟩ | h2
    · split_ifs at hm with hg hep
      · rcases List.mem_append.mp hm with h3 | h3
        · rcases hb : bget s.board (row + d) (col + dc) with _ | tp <;>
            simp only [hb] at h3
          · simp at h3
          · split_ifs at h3
            · simp at h3
              subst h3
              exact ⟨hg.1, hg.2.1, hg.2.2.1, hg.2.2.2⟩
            · simp at h3
        · simp only [List.mem_singleton] at h3
          subst h3
          exact ⟨hg.1, hg.2.1, hg.2.2.1, hg.2.2.2⟩
      · rcases List.mem_append.mp hm with h3 | h3
        · rcases hb : bget s.board (row + d) (col + dc) with _ | tp <;>
            simp only [hb] at h3
          · simp at h3
          · split_ifs at h3
            · simp at h3
              subst h3
              exact ⟨hg.1, hg.2.1, hg.2.2.1, hg.2.2.2⟩
            · simp at h3
        · simp at h3
      · simp at hm
    · simp at h2

/-- C10 counterexample: with a white king placed on (7,1) via edit mode
(both never-moved flags survive edit-mode placement), queenside castling
evaluation reads `board[row][col-2]` and `board[row][col-3]` through
Python's negative-index wrap, succeeds, and the generator emits the
castling destination `(7, -1)` — a square outside the board — because the
castling destinations are appended without any bounds check. -/
theorem C10_counterexample :
    ((7 : Int), (-1 : Int)) ∈ (get_king_moves_ns c10state 7 1).1 ∧
    ¬ inBounds ((7 : Int), (-1 : Int)) :=
  ⟨by decide, by simp [inBounds]⟩

/-- C10 amended: every candidate move produced by the pawn, knight,
bishop, rook and queen generators, by the king's adjacent-step generator,
and hence by simple-mode generation for any piece kind, lies within
[0,8)²; only the king's castling destinations (non-simple mode) are
emitted without a bounds check and can leave the board. -/
theorem C10_generated_moves_in_bounds (s : GameState) (row col : Int) (mv : Pos)
    (hr0 : 0 ≤ row) (hr8 : row < 8) (hc0 : 0 ≤ col) (hc8 : col < 8) :
    (mv ∈ get_pawn_moves s row col → inBounds mv) ∧
    (mv ∈ get_knight_moves s row col → inBounds mv) ∧
    (mv ∈ get_bishop_moves s row col → inBounds mv) ∧
    (mv ∈ get_rook_moves s row col → inBounds mv) ∧
    (mv ∈ get_queen_moves s row col → inBounds mv) ∧
    (mv ∈ kingAdjacent s row col → inBounds mv) ∧
    (mv ∈ get_valid_moves_simple s col row → inBounds mv) := by
  refine ⟨pawn_inB s row col mv hc0 hc8, knight_inB s row col mv,
    bishop_inB s row col mv, rook_inB s row col mv, queen_inB s row col mv,
    king_adj_inB s row col mv, ?_⟩
  intro h
  unfold get_valid_moves_simple at h
  split_ifs at h
  · simp at h
  · rcases hb : bget s.board row col with _ | piece <;> simp only [hb] at h
    · simp at h
    · obtain ⟨pc, pk⟩ := piece
      cases pk <;>
        first
          | exact pawn_inB s row col mv hc0 hc8 h
          | exact knight_inB s row col mv h
          | exact bishop_inB s row col mv h
          | exact rook_inB s row col mv h
          | exact queen_inB s row col mv h
          | exact king_adj_inB s row col mv h

/-- C10 witness: the black rook on (0,4) of `c4state` generates (0,0),
which the theorem puts in bounds. -/
theorem C10_witness :
    ((0 : Int), (0 : Int)) ∈ get_rook_moves c4state 0 4 ∧
    inBounds (((0 : Int), (0 : Int)) : Pos) :=
  ⟨by decide,
    (C10_generated_moves_in_bounds c4state 0 4 (0, 0) (by decide) (by decide)
      (by decide) (by decide)).2.2.2.1 (by decide)⟩


/-! ### Claim C1 -/

theorem posMem_iff (p : Pos) (ms : List Pos) : posMem p ms = true ↔ p ∈ ms := by
  simp [posMem, List.any_eq_true]

theorem hypoClear_foldl (pos : Pos) (gs : List (Pos × Piece)) :
    ∀ (b : Board) (qp : Pos),
      (gs.foldl (fun acc op => if op.1 ≠ pos then bset acc op.1 none else acc) b) qp =
      (if gs.any (fun op => decide (op.1 ≠ pos) && decide (normPos op.1 = qp)) then none
       else b qp) := by
  induction gs with
  | nil =>
    intro b qp
    simp
  | cons x xs ih =>
    intro b qp
    rw [List.foldl_cons, ih, List.any_cons]
    cases hxs : xs.any (fun op => decide (op.1 ≠ pos) && decide (normPos op.1 = qp))
    · by_cases hx : x.1 = pos
      · simp [hx, hxs]
      · by_cases hq : qp = normPos x.1
        · simp [hx, hq, hxs, bset]
        · simp [hx, hxs, bset, Ne.symm, hq]
    · simp [hxs]

theorem hypoBoard_eq_spec (bo : Board) (group : List (Pos × Piece)) (pos : Pos)
    (piece : Piece) :
    hypoBoard bo group pos piece = specHypoBoard bo group pos piece := by
  funext qp
  unfold hypoBoard specHypoBoard
  rw [hypoClear_foldl]
  cases hany : group.any (fun op => decide (op.1 ≠ pos) && decide (normPos op.1 = qp))
  · simp [bset]
  · simp

/-- C1: non-simple `is_square_attacked` is true iff some classical
(non-split) enemy piece attacks the square on the current board, or some
single live branch of some unmeasured enemy subsystem attacks it on the
hypothetical board in which that branch's piece is real and all sibling
branch squares of the same subsystem are emptied. -/
theorem C1_is_square_attacked_iff (s : GameState) (row col : Int) (color : Color) :
    is_square_attacked s row col color = true ↔
      classicalAttacker s row col color ∨ branchAttacker s row col color := by
  unfold is_square_attacked classicalAttacker branchAttacker
  rw [Bool.or_eq_true]
  constructor
  · rintro (hcl | hq)
    · left
      rw [List.any_eq_true] at hcl
      obtain ⟨r, hr, hcl⟩ := hcl
      rw [List.any_eq_true] at hcl
      obtain ⟨c, hc, hcl⟩ := hcl
      rw [List.mem_range] at hr hc
      rcases hb : bget s.board (r : Int) (c : Int) with _ | piece <;>
        simp only [hb] at hcl
      · exact absurd hcl (by simp)
      · rw [Bool.and_eq_true, Bool.and_eq_true] at hcl
        obtain ⟨⟨h1, h2⟩, h3⟩ := hcl
        rcases hmap : s.split_manager.global_position_map ((r : Int), (c : Int))
          with _ | e
        · exact ⟨r, c, hr, hc, piece, hb, of_decide_eq_true h1, hmap,
            (posMem_iff _ _).mp h3⟩
        · rw [QuantumSplitManager.is_split_piece, hmap] at h2
          simp at h2
    · right
      rw [List.any_eq_true] at hq
      obtain ⟨group, hg, hq⟩ := hq
      rw [List.any_eq_true] at hq
      obtain ⟨pp, hpp, hq⟩ := hq
      rw [Bool.and_eq_true] at hq
      obtain ⟨h1, h2⟩ := hq
      rw [hypoBoard_eq_spec] at h2
      exact ⟨group, hg, pp, hpp, of_decide_eq_true h1, (posMem_iff _ _).mp h2⟩
  · rintro (⟨r, c, hr, hc, piece, hb, hcol, hmap, hmem⟩ | ⟨group, hg, pp, hpp, hcol, hmem⟩)
    · left
      rw [List.any_eq_true]
      refine ⟨r, List.mem_range.mpr hr, ?_⟩
      rw [List.any_eq_true]
      refine ⟨c, List.mem_range.mpr hc, ?_⟩
      simp only [hb]
      rw [Bool.and_eq_true, Bool.and_eq_true]
      refine ⟨⟨decide_eq_true hcol, ?_⟩, (posMem_iff _ _).mpr hmem⟩
      rw [QuantumSplitManager.is_split_piece, hmap]
      rfl
    · right
      rw [List.any_eq_true]
      refine ⟨group, hg, ?_⟩
      rw [List.any_eq_true]
      refine ⟨pp, hpp, ?_⟩
      rw [Bool.and_eq_true]
      rw [hypoBoard_eq_spec]
      exact ⟨decide_eq_true hcol, (posMem_iff _ _).mpr hmem⟩

/-! ### Claim C4 -/

theorem listMapIdxFrom_get? {α : Type} (f : Nat → α → α) :
    ∀ (xs : List α) (i j : Nat),
      (listMapIdxFrom f i xs).get? j = (xs.get? j).map (f (i + j)) := by
  intro xs
  induction xs with
  | nil =>
    intro i j
    simp [listMapIdxFrom]
  | cons x xs ih =>
    intro i j
    cases j with
    | zero => simp [listMapIdxFrom]
    | succ n =>
      have heq : i + 1 + n = i + (n + 1) := by omega
      simp only [listMapIdxFrom, List.get?_cons_succ, ih (i + 1) n, heq]

theorem listMapIdx_get? {α : Type} (f : Nat → α → α) (xs : List α) (j : Nat) :
    (listMapIdx f xs).get? j = (xs.get? j).map (f j) := by
  rw [listMapIdx, listMapIdxFrom_get?, Nat.zero_add]

theorem collapse_all_measured (m : QuantumSplitManager) (o : Oracle)
    (i : Nat) (sub : QuantumSubsystem)
    (h : (m.collapse_all o).subsystems.get? i = some sub) : sub.measured = true := by
  unfold QuantumSplitManager.collapse_all at h
  simp only [listMapIdx_get?] at h
  rcases ho : m.subsystems.get? i with _ | orig <;> rw [ho] at h
  · simp at h
  · simp only [Option.map_some'] at h
    cases h
    exact collapse_measured orig (o i)

/-- C4 counterexample: a black rook split between (0,0) and (0,4) gives a
quantum check on the white king at (7,4).  The affirmative non-simple
`is_in_check` collapses and folds (the rook materializes on (0,0), off the
king's file), and does invalidate the cache — but then immediately stores
the pre-collapse `True` in white's slot, so a later non-simple query
returns that stale `True` even though the now-fully-classical board shows
no check (the simple recomputation on the post state is `False`). -/
theorem C4_counterexample :
    (is_in_check_ns c4qstate oracleA Color.w).1 = true ∧
    (is_in_check_ns c4qstate oracleA Color.w).2.check_cache Color.w = some true ∧
    is_in_check_ns ((is_in_check_ns c4qstate oracleA Color.w).2) oracleA Color.w =
      (true, (is_in_check_ns c4qstate oracleA Color.w).2) ∧
    is_in_check_simple ((is_in_check_ns c4qstate oracleA Color.w).2) Color.w = false := by
  refine ⟨by decide, by decide, ?_, by decide⟩
  have h : (is_in_check_ns c4qstate oracleA Color.w).2.check_cache Color.w =
      some true := by decide
  generalize hS : (is_in_check_ns c4qstate oracleA Color.w).2 = s' at h ⊢
  unfold is_in_check_ns
  rw [h]

/-- C4 amended: an affirmative non-simple `is_in_check` call (with an
empty cache slot for the queried color) collapses every unmeasured
subsystem, folds the collapse results into the board, and invalidates the
per-color check cache — but then stores the just-computed affirmative
answer back into the queried color's slot.  Later queries for the other
color therefore recompute against the now-fully-classical board, while a
later non-simple query for the queried color returns the stored
pre-collapse `True`. -/
theorem C4_affirmative_check_collapses (s : GameState) (o : Oracle) (color : Color)
    (hc : s.check_cache color = none)
    (ht : (is_in_check_ns s o color).1 = true) :
    (∀ i sub, (is_in_check_ns s o color).2.split_manager.subsystems.get? i = some sub →
      sub.measured = true) ∧
    (is_in_check_ns s o color).2.board =
      ((s.split_manager.collapse_all o).apply_collapse_to_board s.board none).1 ∧
    (is_in_check_ns s o color).2.split_manager =
      ((s.split_manager.collapse_all o).apply_collapse_to_board s.board none).2 ∧
    (is_in_check_ns s o color).2.check_cache color = some true ∧
    (is_in_check_ns s o color).2.check_cache color.other = none := by
  unfold is_in_check_ns at ht ⊢
  rw [hc] at ht ⊢
  rcases hk : find_king s color with _ | kp <;> simp only [hk] at ht ⊢
  · exact absurd ht (by simp)
  · simp only [ht, if_true] at ht ⊢
    refine ⟨?_, rfl, rfl, ?_, ?_⟩
    · intro i sub h
      exact collapse_all_measured s.split_manager o i sub h
    · simp [setCache, invalidate_check_cache]
    · simp [setCache, invalidate_check_cache, Color.other_ne]

/-- C4 witness: the classical rook check of `c4state` satisfies the
hypotheses and the theorem's conclusions instantiate there. -/
theorem C4_witness :
    c4state.check_cache Color.w = none ∧
    (is_in_check_ns c4state oracleA Color.w).1 = true ∧
    (is_in_check_ns c4state oracleA Color.w).2.check_cache Color.w = some true ∧
    (is_in_check_ns c4state oracleA Color.w).2.check_cache Color.w.other = none :=
  ⟨rfl, by decide,
    (C4_affirmative_check_collapses c4state oracleA Color.w rfl (by decide)).2.2.2.1,
    (C4_affirmative_check_collapses c4state oracleA Color.w rfl (by decide)).2.2.2.2⟩

/-! ### Claim C5 -/

/-- C5: with the game not over and edit mode off, `is_legal_move` returns
`false` iff the make/unmake simulation (move the piece, query the simple
check of the mover's own king, restore) shows the mover in check
afterwards: the mover-started-in-check branch re-runs the identical
simulation, so in every case the answer is the negation of the simulated
after-state check — a move is illegal exactly when it leaves (or keeps)
the mover in check, and legal exactly when the after-state is clear. -/
theorem C5_is_legal_move_iff (s : GameState) (fr fc tr tc : Int)
    (hg : s.game_over = false) (he : s.edit_mode = false) :
    (is_legal_move s fr fc tr tc = false ↔
      is_in_check_simple
        (setBoard s
          (bset (bset s.board (tr, tc) (bget s.board fr fc)) (fr, fc) none))
        s.turn = true) := by
  unfold is_legal_move
  rw [hg, he]
  simp only [Bool.false_or, Bool.or_self, if_false]
  by_cases hb : is_in_check_simple s s.turn = true
  · simp only [hb, if_true]
    cases hafter : is_in_check_simple
      (setBoard s (bset (bset s.board (tr, tc) (bget s.board fr fc)) (fr, fc) none))
      s.turn <;> simp [hafter]
  · simp only [Bool.not_eq_true] at hb
    simp only [hb, if_false]
    cases hafter : is_in_check_simple
      (setBoard s (bset (bset s.board (tr, tc) (bget s.board fr fc)) (fr, fc) none))
      s.turn <;> simp [hafter]

/-- C5 witness: in `c4state` (white king on (7,4) checked by the rook on
(0,4)), sliding the king from (7,4) to (7,4)→(6,4) keeps it on the rook's
file: the simulation shows check afterwards and the move is illegal. -/
theorem C5_witness :
    (baseState (boardOf [((7, 4), wk), ((0, 4), br)])).game_over = false ∧
    is_legal_move (baseState (boardOf [((7, 4), wk), ((0, 4), br)])) 7 4 6 4 = false ∧
    is_in_check_simple
      (setBoard (baseState (boardOf [((7, 4), wk), ((0, 4), br)]))
        (bset
          (bset (baseState (boardOf [((7, 4), wk), ((0, 4), br)])).board (6, 4)
            (bget (baseState (boardOf [((7, 4), wk), ((0, 4), br)])).board 7 4))
          (7, 4) none))
      (baseState (boardOf [((7, 4), wk), ((0, 4), br)])).turn = true :=
  ⟨rfl, by decide,
    (C5_is_legal_move_iff (baseState (boardOf [((7, 4), wk), ((0, 4), br)]))
      7 4 6 4 rfl rfl).mp (by decide)⟩

/-! ### Frame lemmas for the move-execution theorems -/

theorem castlingOnly_refl (s : GameState) : castlingOnly s s := rfl

theorem castlingOnly_trans {s1 s2 s3 : GameState} (h1 : castlingOnly s1 s2)
    (h2 : castlingOnly s2 s3) : castlingOnly s1 s3 := by
  unfold castlingOnly at h1 h2 ⊢
  rw [h2, h1]

theorem castlingOnly_fields {s s' : GameState} (h : castlingOnly s s') :
    s'.board = s.board ∧ s'.split_manager = s.split_manager ∧
    s'.captured = s.captured ∧ s'.history = s.history ∧
    s'.check_cache = s.check_cache ∧ s'.turn = s.turn ∧
    s'.split_mode = s.split_mode ∧ s'.game_over = s.game_over ∧
    s'.edit_mode = s.edit_mode ∧ s'.promotion_pending = s.promotion_pending ∧
    s'.en_passant = s.en_passant ∧ s'.promotion_pos = s.promotion_pos := by
  rw [h]
  exact ⟨rfl, rfl, rfl, rfl, rfl, rfl, rfl, rfl, rfl, rfl, rfl, rfl⟩

theorem checkOnly_fields {s s' : GameState} (h : checkOnly s s') :
    s'.captured = s.captured ∧ s'.history = s.history ∧
    s'.turn = s.turn ∧ s'.split_mode = s.split_mode ∧
    s'.castling = s.castling ∧ s'.game_over = s.game_over ∧
    s'.edit_mode = s.edit_mode ∧ s'.promotion_pending = s.promotion_pending ∧
    s'.en_passant = s.en_passant ∧ s'.promotion_pos = s.promotion_pos := by
  rw [h]
  exact ⟨rfl, rfl, rfl, rfl, rfl, rfl, rfl, rfl, rfl, rfl⟩

theorem can_castle_castlingOnly (s : GameState) (row col : Int) :
    castlingOnly s (can_castle s row col).2 := by
  rcases can_castle_snd_cases s row col with h | ⟨ci, h, _, _⟩ <;>
    unfold castlingOnly <;> rw [h] <;> rfl

theorem gkm_castlingOnly (s : GameState) (row col : Int) :
    castlingOnly s (get_king_moves_ns s row col).2 := by
  unfold get_king_moves_ns
  split_ifs with h1
  · cases hres : (can_castle s row col).1 <;> simp only [hres] <;>
      exact can_castle_castlingOnly s row col
  · exact castlingOnly_refl s

theorem gvm_castlingOnly (s : GameState) (col row : Int) :
    castlingOnly s (get_valid_moves_ns s col row).2 := by
  unfold get_valid_moves_ns
  split_ifs with h1
  · exact castlingOnly_refl s
  · rcases hb : bget s.board row col with _ | piece <;> simp only [hb]
    · exact castlingOnly_refl s
    · split_ifs with h2
      · exact castlingOnly_refl s
      · obtain ⟨pc, pk⟩ := piece
        cases pk <;>
          first
            | exact gkm_castlingOnly s row col
            | exact castlingOnly_refl s

theorem escape_step_castlingOnly (color : Color) (acc : Bool × GameState)
    (rc : Nat × Nat) {s : GameState} (h : castlingOnly s acc.2) :
    castlingOnly s (escape_step color acc rc).2 := by
  unfold escape_step
  split_ifs with h1
  · exact h
  · rcases hb : bget acc.2.board (rc.1 : Int) (rc.2 : Int) with _ | piece <;>
      simp only [hb]
    · exact h
    · split_ifs with h2 h3
      · exact castlingOnly_trans h (gvm_castlingOnly acc.2 rc.2 rc.1)
      · exact castlingOnly_trans h (gvm_castlingOnly acc.2 rc.2 rc.1)
      · exact h

theorem escape_scan_castlingOnly (s : GameState) (color : Color) :
    castlingOnly s (escape_scan s color).2 := by
  unfold escape_scan
  have haux : ∀ (l : List (Nat × Nat)) (acc : Bool × GameState),
      castlingOnly s acc.2 → castlingOnly s (l.foldl (escape_step color) acc).2 := by
    intro l
    induction l with
    | nil => intro acc h; exact h
    | cons x xs ih =>
      intro acc h
      rw [List.foldl_cons]
      exact ih _ (escape_step_castlingOnly color acc x h)
  exact haux squaresRM (false, s) (castlingOnly_refl s)

theorem in_check_ns_checkOnly (s : GameState) (o : Oracle) (c : Color) :
    checkOnly s (is_in_check_ns s o c).2 := by
  unfold is_in_check_ns
  rcases hc : s.check_cache c with _ | v <;> simp only [hc]
  · rcases hk : find_king s c with _ | kp <;> simp only [hk]
    · rfl
    · by_cases hi : is_square_attacked s kp.1 kp.2 c = true
      · simp only [hi]
        rfl
      · simp only [Bool.not_eq_true] at hi
        simp only [hi]
        rfl
  · rfl

theorem in_check_ns_preserves (s : GameState) (o : Oracle) (c : Color) :
    (is_in_check_ns s o c).2.captured = s.captured ∧
    (is_in_check_ns s o c).2.history = s.history ∧
    (is_in_check_ns s o c).2.split_mode = s.split_mode ∧
    (is_in_check_ns s o c).2.turn = s.turn ∧
    (is_in_check_ns s o c).2.promotion_pending = s.promotion_pending ∧
    (is_in_check_ns s o c).2.en_passant = s.en_passant := by
  rcases checkOnly_fields (in_check_ns_checkOnly s o c) with
    ⟨h1, h2, h3, h4, _, _, _, h8, h9, _⟩
  exact ⟨h1, h2, h4, h3, h8, h9⟩

theorem escape_scan_preserves (s : GameState) (c : Color) :
    (escape_scan s c).2.captured = s.captured ∧
    (escape_scan s c).2.history = s.history ∧
    (escape_scan s c).2.split_mode = s.split_mode ∧
    (escape_scan s c).2.turn = s.turn ∧
    (escape_scan s c).2.promotion_pending = s.promotion_pending ∧
    (escape_scan s c).2.en_passant = s.en_passant ∧
    (escape_scan s c).2.board = s.board ∧
    (escape_scan s c).2.split_manager = s.split_manager := by
  rcases castlingOnly_fields (escape_scan_castlingOnly s c) with
    ⟨h1, h2, h3, h4, _, h6, h7, _, _, h10, h11, _⟩
  exact ⟨h3, h4, h7, h6, h10, h11, h1, h2⟩

theorem is_checkmate_preserves (s : GameState) (o : Oracle) (c : Color) :
    (is_checkmate s o c).2.captured = s.captured ∧
    (is_checkmate s o c).2.history = s.history ∧
    (is_checkmate s o c).2.split_mode = s.split_mode ∧
    (is_checkmate s o c).2.turn = s.turn ∧
    (is_checkmate s o c).2.promotion_pending = s.promotion_pending ∧
    (is_checkmate s o c).2.en_passant = s.en_passant := by
  rcases in_check_ns_preserves s o c with ⟨c1, c2, c3, c4, c5, c6⟩
  unfold is_checkmate
  cases hchk : (is_in_check_ns s o c).1 <;>
    simp only [hchk, Bool.not_false, Bool.not_true, Bool.false_eq_true, if_true, if_false]
  · exact ⟨c1, c2, c3, c4, c5, c6⟩
  · rcases escape_scan_preserves (is_in_check_ns s o c).2 c with
      ⟨e1, e2, e3, e4, e5, e6, _, _⟩
    exact ⟨e1.trans c1, e2.trans c2, e3.trans c3, e4.trans c4, e5.trans c5,
      e6.trans c6⟩

theorem is_stalemate_preserves (s : GameState) (o : Oracle) (c : Color) :
    (is_stalemate s o c).2.captured = s.captured ∧
    (is_stalemate s o c).2.history = s.history ∧
    (is_stalemate s o c).2.split_mode = s.split_mode ∧
    (is_stalemate s o c).2.turn = s.turn ∧
    (is_stalemate s o c).2.promotion_pending = s.promotion_pending ∧
    (is_stalemate s o c).2.en_passant = s.en_passant := by
  rcases in_check_ns_preserves s o c with ⟨c1, c2, c3, c4, c5, c6⟩
  unfold is_stalemate
  cases hchk : (is_in_check_ns s o c).1 <;>
    simp only [hchk, Bool.not_false, Bool.not_true, Bool.false_eq_true, if_true, if_false]
  · rcases escape_scan_preserves (is_in_check_ns s o c).2 c with
      ⟨e1, e2, e3, e4, e5, e6, _, _⟩
    exact ⟨e1.trans c1, e2.trans c2, e3.trans c3, e4.trans c4, e5.trans c5,
      e6.trans c6⟩
  · exact ⟨c1, c2, c3, c4, c5, c6⟩

theorem end_eval_preserves (s : GameState) (o : Oracle) :
    (end_of_move_eval s o).captured = s.captured ∧
    (end_of_move_eval s o).history = s.history ∧
    (end_of_move_eval s o).split_mode = s.split_mode ∧
    (end_of_move_eval s o).turn = s.turn ∧
    (end_of_move_eval s o).promotion_pending = s.promotion_pending ∧
    (end_of_move_eval s o).en_passant = s.en_passant := by
  rcases is_checkmate_preserves s o s.turn with ⟨c1, c2, c3, c4, c5, c6⟩
  rcases is_stalemate_preserves (is_checkmate s o s.turn).2 o
      (is_checkmate s o s.turn).2.turn with ⟨d1, d2, d3, d4, d5, d6⟩
  unfold end_of_move_eval
  cases hcm : (is_checkmate s o s.turn).1 <;>
    simp only [hcm, Bool.false_eq_true, if_true, if_false]
  · cases hsm : (is_stalemate (is_checkmate s o s.turn).2 o
        (is_checkmate s o s.turn).2.turn).1 <;>
      simp only [hsm, Bool.false_eq_true, if_true, if_false]
    · exact ⟨d1.trans c1, d2.trans c2, d3.trans c3, d4.trans c4, d5.trans c5,
        d6.trans c6⟩
    · exact ⟨d1.trans c1, d2.trans c2, d3.trans c3, d4.trans c4, d5.trans c5,
        d6.trans c6⟩
  · exact ⟨c1, c2, c3, c4, c5, c6⟩

theorem collapse_all_get_measured (m : QuantumSplitManager) (o : Oracle)
    (i : Nat) (orig : QuantumSubsystem) (ho : m.subsystems.get? i = some orig) :
    (((m.collapse_all o).subsystems.get? i).map fun su => su.measured) =
      some true := by
  unfold QuantumSplitManager.collapse_all
  simp only [listMapIdx_get?, ho, Option.map_some']
  simp [collapse_measured]

theorem in_check_ns_measured (s : GameState) (o : Oracle) (c : Color) (i : Nat)
    (h : ((s.split_manager.subsystems.get? i).map fun su => su.measured) =
      some true) :
    (((is_in_check_ns s o c).2.split_manager.subsystems.get? i).map
      fun su => su.measured) = some true := by
  unfold is_in_check_ns
  rcases hc : s.check_cache c with _ | v <;> simp only [hc]
  · rcases hk : find_king s c with _ | kp <;> simp only [hk]
    · exact h
    · rcases ho : s.split_manager.subsystems.get? i with _ | orig
      · rw [ho] at h
        simp at h
      · by_cases hi : is_square_attacked s kp.1 kp.2 c = true
        · simp only [hi]
          exact collapse_all_get_measured s.split_manager o i orig ho
        · simp only [Bool.not_eq_true] at hi
          simp only [hi]
          exact h
  · exact h

theorem is_checkmate_measured (s : GameState) (o : Oracle) (c : Color) (i : Nat)
    (h : ((s.split_manager.subsystems.get? i).map fun su => su.measured) =
      some true) :
    (((is_checkmate s o c).2.split_manager.subsystems.get? i).map
      fun su => su.measured) = some true := by
  have h1 := in_check_ns_measured s o c i h
  unfold is_checkmate
  cases hchk : (is_in_check_ns s o c).1 <;>
    simp only [hchk, Bool.not_false, Bool.not_true, Bool.false_eq_true, if_true, if_false]
  · exact h1
  · rcases escape_scan_preserves (is_in_check_ns s o c).2 c with
      ⟨_, _, _, _, _, _, _, e8⟩
    rw [e8]
    exact h1

theorem is_stalemate_measured (s : GameState) (o : Oracle) (c : Color) (i : Nat)
    (h : ((s.split_manager.subsystems.get? i).map fun su => su.measured) =
      some true) :
    (((is_stalemate s o c).2.split_manager.subsystems.get? i).map
      fun su => su.measured) = some true := by
  have h1 := in_check_ns_measured s o c i h
  unfold is_stalemate
  cases hchk : (is_in_check_ns s o c).1 <;>
    simp only [hchk, Bool.not_false, Bool.not_true, Bool.false_eq_true, if_true, if_false]
  · rcases escape_scan_preserves (is_in_check_ns s o c).2 c with
      ⟨_, _, _, _, _, _, _, e8⟩
    rw [e8]
    exact h1
  · exact h1

theorem end_eval_measured (s : GameState) (o : Oracle) (i : Nat)
    (h : ((s.split_manager.subsystems.get? i).map fun su => su.measured) =
      some true) :
    (((end_of_move_eval s o).split_manager.subsystems.get? i).map
      fun su => su.measured) = some true := by
  have h1 := is_checkmate_measured s o s.turn i h
  have h2 := is_stalemate_measured (is_checkmate s o s.turn).2 o
    (is_checkmate s o s.turn).2.turn i h1
  unfold end_of_move_eval
  cases hcm : (is_checkmate s o s.turn).1 <;>
    simp only [hcm, Bool.false_eq_true, if_true, if_false]
  · cases hsm : (is_stalemate (is_checkmate s o s.turn).2 o
        (is_checkmate s o s.turn).2.turn).1 <;>
      simp only [hsm, Bool.false_eq_true, if_true, if_false]
    · exact h2
    · exact h2
  · exact h1

theorem is_checkmate_no_king (s : GameState) (o : Oracle)
    (hc : s.check_cache s.turn = none) (hk : find_king s s.turn = none) :
    is_checkmate s o s.turn = (false, s) := by
  unfold is_checkmate
  rw [is_in_check_ns_no_king s o s.turn hc hk]
  rfl

theorem end_eval_frozen (s : GameState) (o : Oracle)
    (hc : s.check_cache s.turn = none) (hk : find_king s s.turn = none) :
    (end_of_move_eval s o).board = s.board ∧
    (end_of_move_eval s o).split_manager = s.split_manager ∧
    (end_of_move_eval s o).split_mode = s.split_mode ∧
    (end_of_move_eval s o).promotion_pending = s.promotion_pending := by
  have hstale : (is_stalemate s o s.turn).2 = (escape_scan s s.turn).2 := by
    unfold is_stalemate
    rw [is_in_check_ns_no_king s o s.turn hc hk]
    rfl
  rcases castlingOnly_fields (escape_scan_castlingOnly s s.turn) with
    ⟨e1, e2, _, _, _, _, e7, _, _, e10, _, _⟩
  unfold end_of_move_eval
  rw [is_checkmate_no_king s o hc hk]
  cases hsm : (is_stalemate s o s.turn).1 <;>
    simp only [hsm, hstale, Bool.false_eq_true, if_true, if_false]
  · exact ⟨e1, e2, e7, e10⟩
  · exact ⟨e1, e2, e7, e10⟩

/-! ### Claim C6 -/

theorem listMapIdxFrom_length {α : Type} (f : Nat → α → α) :
    ∀ (xs : List α) (i : Nat), (listMapIdxFrom f i xs).length = xs.length := by
  intro xs
  induction xs with
  | nil => intro i; rfl
  | cons x xs ih =>
    intro i
    simp only [listMapIdxFrom, List.length_cons, ih]

theorem listMapIdx_length {α : Type} (f : Nat → α → α) (xs : List α) :
    (listMapIdx f xs).length = xs.length := listMapIdxFrom_length f xs 0

theorem collapse_qubit_getQubit (m : QuantumSplitManager) (o : Oracle)
    (si qi : Nat) (sub : QuantumSubsystem) (q : SplitQubit)
    (hsub : m.subsystems.get? si = some sub)
    (hq : sub.split_qubits.get? qi = some q)
    (hmeas : sub.measured = false) :
    (m.collapse_qubit o si).getQubit si qi =
      some { q with collapsed_result := some (o si qi) } := by
  unfold QuantumSplitManager.collapse_qubit QuantumSplitManager.getQubit
  simp only [listMapIdx_get?, hsub, Option.map_some', if_pos rfl, Option.some_bind]
  unfold QuantumSubsystem.collapse
  rw [hmeas]
  simp only [Bool.false_eq_true, if_false, if_true, listMapIdx_get?, hq,
    Option.map_some']

theorem collapse_qubit_measured (m : QuantumSplitManager) (o : Oracle)
    (si : Nat) (sub : QuantumSubsystem)
    (hsub : m.subsystems.get? si = some sub) :
    (((m.collapse_qubit o si).subsystems.get? si).map fun su => su.measured) =
      some true := by
  unfold QuantumSplitManager.collapse_qubit
  simp only [listMapIdx_get?, hsub, Option.map_some', if_pos rfl]
  simp [collapse_measured]

theorem apply_collapse_subsystems (m : QuantumSplitManager) (b : Board)
    (t : Option (Nat × Nat)) :
    ((m.apply_collapse_to_board b t).2).subsystems = m.subsystems := rfl

theorem collapse_qubit_gpm (m : QuantumSplitManager) (o : Oracle) (si : Nat) :
    (m.collapse_qubit o si).global_position_map = m.global_position_map := rfl

theorem apply_collapse_gpm_none (m : QuantumSplitManager) (b : Board)
    (t : Option (Nat × Nat)) (pos : Pos)
    (h : m.global_position_map pos = none) :
    ((m.apply_collapse_to_board b t).2).global_position_map pos = none := by
  unfold QuantumSplitManager.apply_collapse_to_board
  simp only [h]

theorem create_split_get?_of_fresh (m : QuantumSplitManager)
    (from_pos to_pos : Pos) (pt : Piece) (i : Nat)
    (hfrom : m.global_position_map from_pos = none)
    (hi : i < m.subsystems.length) :
    (m.create_split_qubit from_pos to_pos pt).subsystems.get? i =
      m.subsystems.get? i := by
  unfold QuantumSplitManager.create_split_qubit
  simp only [hfrom]
  exact List.get?_append hi

theorem ite_proj {α : Type} {c : Prop} [Decidable c] (a b : GameState)
    (f : GameState → α) (h1 : f a = f b) : f (if c then a else b) = f b := by
  split_ifs
  · exact h1
  · rfl

theorem make_move_rest_capt_hist (s2 : GameState) (oracle : Oracle)
    (fr fc tr tc : Int) (piece : Piece) (target : Option Piece)
    (is_ep : Prop) [Decidable is_ep] (hne : ¬is_ep)
    (hpr : ¬(piece.kind = Kind.p ∧ (tr = 0 ∨ tr = 7))) :
    (make_move_rest s2 oracle fr fc tr tc piece target is_ep).captured =
      s2.captured ∧
    (make_move_rest s2 oracle fr fc tr tc piece target is_ep).history =
      s2.history ++ [⟨fr, fc, tr, tc, piece, target⟩] := by
  unfold make_move_rest
  simp only [if_neg hne, if_neg hpr]
  cases hsplit : s2.split_mode <;>
    simp only [hsplit, Bool.not_true, Bool.not_false, Bool.false_eq_true,
      if_true, if_false]
  · constructor
    · rw [(end_eval_preserves _ oracle).1]
      split_ifs <;> rfl
    · rw [(end_eval_preserves _ oracle).2.1]
      split_ifs <;> rfl
  · constructor
    · rw [(end_eval_preserves _ oracle).1]
      split_ifs <;> rfl
    · rw [(end_eval_preserves _ oracle).2.1]
      split_ifs <;> rfl

theorem make_move_rest_measured (s2 : GameState) (oracle : Oracle)
    (fr fc tr tc : Int) (piece : Piece) (target : Option Piece)
    (is_ep : Prop) [Decidable is_ep] (hne : ¬is_ep)
    (hpr : ¬(piece.kind = Kind.p ∧ (tr = 0 ∨ tr = 7))) (i : Nat)
    (hfree : s2.split_manager.global_position_map (fr, fc) = none)
    (hm : ((s2.split_manager.subsystems.get? i).map fun su => su.measured) =
      some true) :
    (((make_move_rest s2 oracle fr fc tr tc piece target
        is_ep).split_manager.subsystems.get? i).map fun su => su.measured) =
      some true := by
  rcases ho : s2.split_manager.subsystems.get? i with _ | su
  · rw [ho] at hm
    simp at hm
  · rw [ho, Option.map_some'] at hm
    have hlt : i < s2.split_manager.subsystems.length := by
      rcases List.get?_eq_some.mp ho with ⟨hl, _⟩
      exact hl
    unfold make_move_rest
    simp only [if_neg hne, if_neg hpr]
    cases hsplit : s2.split_mode <;>
      simp only [hsplit, Bool.not_true, Bool.not_false, Bool.false_eq_true,
        if_true, if_false]
    · apply end_eval_measured
      split_ifs <;>
        exact show Option.map (fun su => su.measured)
            (s2.split_manager.subsystems.get? i) = some true by
          rw [ho, Option.map_some']
          exact hm
    · apply end_eval_measured
      split_ifs <;>
        exact show Option.map (fun su => su.measured)
            ((s2.split_manager.create_split_qubit (fr, fc) (tr, tc)
              piece).subsystems.get? i) = some true by
          rw [create_split_get?_of_fresh s2.split_manager (fr, fc) (tr, tc) piece
            i hfree hlt, ho, Option.map_some']
          exact hm

/-- C6: when the destination square of a move is a live split branch (its
subsystem unmeasured), `make_move` force-collapses that branch's qubit
first; then, if the realized occupant is an enemy piece it is captured and
recorded in the mover's capture list and the move completes; if the
realized occupant is the mover's own piece the move is rejected (no
capture recorded, no move recorded in the history); and if the piece
proves not to be there the move proceeds as a move onto empty ground (no
capture recorded, move recorded).  Scoped to a non-split origin holding
`p`, a non-promotion, non-en-passant move. -/
theorem C6_destination_live_branch (s : GameState) (oracle : Oracle)
    (fr fc tr tc : Int) (p tp : Piece) (e : GMEntry)
    (sub : QuantumSubsystem) (q : SplitQubit)
    (hg : s.game_over = false) (he : s.edit_mode = false)
    (hfrom : bget s.board fr fc = some p)
    (hfmap : s.split_manager.global_position_map (fr, fc) = none)
    (hto : bget s.board tr tc = some tp)
    (htmap : s.split_manager.global_position_map (tr, tc) = some e)
    (hsub : s.split_manager.subsystems.get? e.subIdx = some sub)
    (hqb : sub.split_qubits.get? e.qubitIdx = some q)
    (hmeas : sub.measured = false)
    (hep : ¬(p.kind = Kind.p ∧ s.en_passant = some (tr, tc)))
    (hpr : ¬(p.kind = Kind.p ∧ (tr = 0 ∨ tr = 7))) :
    (((make_move s oracle fr fc tr tc).split_manager.subsystems.get?
        e.subIdx).map fun su => su.measured) = some true ∧
    (tp.color ≠ s.turn →
      (if oracle e.subIdx e.qubitIdx = BranchTag.a then q.branch_a
        else q.branch_b).pos = (tr, tc) →
      (make_move s oracle fr fc tr tc).captured s.turn =
        s.captured s.turn ++ [tp] ∧
      (make_move s oracle fr fc tr tc).history =
        s.history ++ [⟨fr, fc, tr, tc, p, some tp⟩]) ∧
    (tp.color = s.turn →
      (if oracle e.subIdx e.qubitIdx = BranchTag.a then q.branch_a
        else q.branch_b).pos = (tr, tc) →
      (make_move s oracle fr fc tr tc).captured = s.captured ∧
      (make_move s oracle fr fc tr tc).history = s.history) ∧
    ((if oracle e.subIdx e.qubitIdx = BranchTag.a then q.branch_a
        else q.branch_b).pos ≠ (tr, tc) →
      (make_move s oracle fr fc tr tc).captured = s.captured ∧
      (make_move s oracle fr fc tr tc).history =
        s.history ++ [⟨fr, fc, tr, tc, p, some tp⟩]) := by
  have hgetq := collapse_qubit_getQubit s.split_manager oracle e.subIdx
    e.qubitIdx sub q hsub hqb hmeas
  have hmq := collapse_qubit_measured s.split_manager oracle e.subIdx sub hsub
  unfold make_move
  simp only [hg, he, Bool.or_self, Bool.false_eq_true, if_false, hfrom, hfmap,
    hto, htmap, QuantumSplitManager.is_split_piece, Option.isSome_some, if_true,
    hgetq, Option.some.injEq]
  refine ⟨?_, ?_, ?_, ?_⟩
  · by_cases hcol : tp.color = s.turn
    · by_cases hreal : (if oracle e.subIdx e.qubitIdx = BranchTag.a
          then q.branch_a else q.branch_b).pos = (tr, tc)
      · simp only [if_pos hcol, if_pos hreal]
        apply end_eval_measured
        exact show Option.map (fun su => su.measured)
            (((s.split_manager.collapse_qubit oracle
              e.subIdx).apply_collapse_to_board s.board
              (some (e.subIdx, e.qubitIdx))).2.subsystems.get? e.subIdx) =
            some true from hmq
      · simp only [if_pos hcol, if_neg hreal]
        apply make_move_rest_measured _ oracle fr fc tr tc p (some tp) _ hep hpr
          e.subIdx
        · exact apply_collapse_gpm_none
            (s.split_manager.collapse_qubit oracle e.subIdx) s.board
            (some (e.subIdx, e.qubitIdx)) (fr, fc) hfmap
        · exact show Option.map (fun su => su.measured)
            (((s.split_manager.collapse_qubit oracle
              e.subIdx).apply_collapse_to_board s.board
              (some (e.subIdx, e.qubitIdx))).2.subsystems.get? e.subIdx) =
            some true from hmq
    · by_cases hreal : (if oracle e.subIdx e.qubitIdx = BranchTag.a
          then q.branch_a else q.branch_b).pos = (tr, tc)
      · simp only [if_neg hcol, if_pos hreal]
        apply make_move_rest_measured _ oracle fr fc tr tc p (some tp) _ hep hpr
          e.subIdx
        · exact apply_collapse_gpm_none
            (s.split_manager.collapse_qubit oracle e.subIdx) s.board
            (some (e.subIdx, e.qubitIdx)) (fr, fc) hfmap
        · exact show Option.map (fun su => su.measured)
            (((s.split_manager.collapse_qubit oracle
              e.subIdx).apply_collapse_to_board s.board
              (some (e.subIdx, e.qubitIdx))).2.subsystems.get? e.subIdx) =
            some true from hmq
      · simp only [if_neg hcol, if_neg hreal]
        apply make_move_rest_measured _ oracle fr fc tr tc p (some tp) _ hep hpr
          e.subIdx
        · exact apply_collapse_gpm_none
            (s.split_manager.collapse_qubit oracle e.subIdx) s.board
            (some (e.subIdx, e.qubitIdx)) (fr, fc) hfmap
        · exact show Option.map (fun su => su.measured)
            (((s.split_manager.collapse_qubit oracle
              e.subIdx).apply_collapse_to_board s.board
              (some (e.subIdx, e.qubitIdx))).2.subsystems.get? e.subIdx) =
            some true from hmq
  · intro hcol hreal
    simp only [if_neg hcol, if_pos hreal]
    constructor
    · rw [(make_move_rest_capt_hist _ oracle fr fc tr tc p (some tp) _ hep hpr).1]
      simp [addCaptured, setBoard]
    · rw [(make_move_rest_capt_hist _ oracle fr fc tr tc p (some tp) _ hep hpr).2]
      rfl
  · intro hcol hreal
    simp only [if_pos hcol, if_pos hreal]
    constructor
    · rw [(end_eval_preserves _ oracle).1]
      rfl
    · rw [(end_eval_preserves _ oracle).2.1]
      rfl
  · intro hreal
    by_cases hcol : tp.color = s.turn
    · simp only [if_pos hcol, if_neg hreal]
      constructor
      · rw [(make_move_rest_capt_hist _ oracle fr fc tr tc p (some tp) _ hep hpr).1]
        rfl
      · rw [(make_move_rest_capt_hist _ oracle fr fc tr tc p (some tp) _ hep hpr).2]
        rfl
    · simp only [if_neg hcol, if_neg hreal]
      constructor
      · rw [(make_move_rest_capt_hist _ oracle fr fc tr tc p (some tp) _ hep hpr).1]
        rfl
      · rw [(make_move_rest_capt_hist _ oracle fr fc tr tc p (some tp) _ hep hpr).2]
        rfl

/-- Witness: in `c6state` (white rook on (4,0); a black knight split between
(4,4), branch a, and (2,3), branch b) the rook move (4,0) → (4,4) under the
all-a oracle collapses the knight's subsystem, realizes the knight at
(4,4), captures it for White and records the move. -/
theorem C6_witness :
    bn.color ≠ c6state.turn ∧
    (if oracleA 0 0 = BranchTag.a then c6q.branch_a else c6q.branch_b).pos =
      (4, 4) ∧
    (make_move c6state oracleA 4 0 4 4).captured c6state.turn =
      c6state.captured c6state.turn ++ [bn] ∧
    (make_move c6state oracleA 4 0 4 4).history =
      c6state.history ++ [⟨4, 0, 4, 4, wr, some bn⟩] ∧
    (((make_move c6state oracleA 4 0 4 4).split_manager.subsystems.get?
        0).map fun su => su.measured) = some true :=
  have h := C6_destination_live_branch c6state oracleA 4 0 4 4 wr bn
    ⟨0, 0, BranchTag.a⟩ c6sub c6q rfl rfl (by decide) (by decide) (by decide)
    (by decide) rfl rfl rfl (by decide) (by decide)
  ⟨by decide, by decide, (h.2.1 (by decide) (by decide)).1,
    (h.2.1 (by decide) (by decide)).2, h.1⟩

/-! ### Claim C7 -/

theorem bget_bset2_fst (b : Board) (fr fc tr tc : Int) (v : Option Piece) :
    bget (bset (bset b (fr, fc) v) (tr, tc) v) fr fc = v := by
  simp only [bget, bset]
  by_cases h : normPos (fr, fc) = normPos (tr, tc)
  · rw [if_pos h]
  · simp [h]

theorem bget_bset2_snd (b : Board) (fr fc tr tc : Int) (v : Option Piece) :
    bget (bset (bset b (fr, fc) v) (tr, tc) v) tr tc = v := by
  simp [bget, bset]

/-- With a fresh (non-split) origin square, `create_split_qubit` appends a
new root subsystem holding one parent-less qubit and indexes both squares
in the global map. -/
theorem create_split_fresh (m : QuantumSplitManager) (from_pos to_pos : Pos)
    (pt : Piece) (h : m.global_position_map from_pos = none) :
    (m.create_split_qubit from_pos to_pos pt).subsystems =
      m.subsystems ++
        [⟨[⟨⟨from_pos, pt⟩, ⟨to_pos, pt⟩, none, none⟩], [], false⟩] ∧
    (m.create_split_qubit from_pos to_pos pt).global_position_map =
      mupdate (mupdate m.global_position_map from_pos
          (some ⟨m.subsystems.length, 0, BranchTag.a⟩))
        to_pos (some ⟨m.subsystems.length, 0, BranchTag.b⟩) := by
  unfold QuantumSplitManager.create_split_qubit
  simp only [h]
  exact ⟨rfl, rfl⟩

/-- A state whose board holds no king of `color` on any square makes
`find_king` come up empty. -/
theorem find_king_none (s : GameState) (color : Color)
    (h : ∀ r : Nat, r ∈ List.range 8 → ∀ c : Nat, c ∈ List.range 8 →
      bget s.board (r : Int) (c : Int) ≠ some ⟨color, Kind.k⟩) :
    find_king s color = none := by
  have hall : ∀ r c : Int, bget s.board r c ≠ some ⟨color, Kind.k⟩ := by
    intro r c
    have hr : (((r.emod 8).toNat : Nat) : Int) = r.emod 8 :=
      Int.toNat_of_nonneg (Int.emod_nonneg r (by norm_num))
    have hc : (((c.emod 8).toNat : Nat) : Int) = c.emod 8 :=
      Int.toNat_of_nonneg (Int.emod_nonneg c (by norm_num))
    have h1 : bget s.board r c =
        bget s.board (((r.emod 8).toNat : Nat) : Int)
          (((c.emod 8).toNat : Nat) : Int) := by
      show s.board (r % 8, c % 8) =
        s.board ((((r.emod 8).toNat : Nat) : Int) % 8,
          (((c.emod 8).toNat : Nat) : Int) % 8)
      rw [hr, hc]
      show s.board (r % 8, c % 8) = s.board (r % 8 % 8, c % 8 % 8)
      rw [Int.emod_emod_of_dvd r (dvd_refl 8),
        Int.emod_emod_of_dvd c (dvd_refl 8)]
    rw [h1]
    have hrlt : r.emod 8 < 8 := Int.emod_lt_of_pos r (by norm_num)
    have hrge : 0 ≤ r.emod 8 := Int.emod_nonneg r (by norm_num)
    have hclt : c.emod 8 < 8 := Int.emod_lt_of_pos c (by norm_num)
    have hcge : 0 ≤ c.emod 8 := Int.emod_nonneg c (by norm_num)
    exact h (r.emod 8).toNat (List.mem_range.mpr (by omega))
      (c.emod 8).toNat (List.mem_range.mpr (by omega))
  have hfr : ∀ (r : Int) (L2 : List Int),
      L2.find? (fun c => decide (bget s.board r c = some ⟨color, Kind.k⟩)) =
      none := by
    intro r L2
    rw [List.find?_eq_none]
    intro c hc
    simp only [decide_eq_true_eq]
    exact hall r c
  unfold find_king
  show List.foldl _ none [0, 1, 2, 3, 4, 5, 6, 7] = none
  simp only [List.foldl_cons, List.foldl_nil, hfr]

/-- The end-of-move evaluation freezes board, split manager and split flag
whenever the side now to move has no king and no cache entry (stated
through explicit board/manager/color parameters so it applies to a state
given only up to definitional unfolding). -/
theorem end_eval_frozen_of (s : GameState) (o : Oracle) (b : Board)
    (m : QuantumSplitManager) (c : Color)
    (hb : s.board = b) (hm : s.split_manager = m) (hs : s.split_mode = false)
    (hcc : s.check_cache s.turn = none) (ht : s.turn = c)
    (hk : ∀ r : Nat, r ∈ List.range 8 → ∀ c2 : Nat, c2 ∈ List.range 8 →
      bget b (r : Int) (c2 : Int) ≠ some ⟨c, Kind.k⟩) :
    (end_of_move_eval s o).board = b ∧
    (end_of_move_eval s o).split_manager = m ∧
    (end_of_move_eval s o).split_mode = false := by
  have hkn : find_king s s.turn = none := by
    apply find_king_none
    intro r hr c2 hc
    rw [hb, ht]
    exact hk r hr c2 hc
  rcases end_eval_frozen s o hcc hkn with ⟨h1, h2, h3, _⟩
  exact ⟨h1.trans hb, h2.trans hm, h3.trans hs⟩

/-- C7 counterexample: with a white pawn already split between (1,3) and
(3,3) and split mode armed, the move (1,3) → (0,3) under the all-a oracle
first force-collapses the origin (so the split-creation that follows is
NOT chained to the origin's qubit: the new qubit sits parent-less in a
fresh subsystem, index 1), and the landing row 0 suspends the move for
promotion — returning before the split-mode reset, so the flag stays set,
contradicting both the chaining clause and the reset clause of the
claim. -/
theorem C7_counterexample :
    c7state.split_mode = true ∧
    (c7state.split_manager.global_position_map (1, 3)).isSome = true ∧
    (make_move c7state oracleA 1 3 0 3).split_mode = true ∧
    (make_move c7state oracleA 1 3 0 3).promotion_pending = true ∧
    ((make_move c7state oracleA 1 3 0 3).split_manager.subsystems.get? 1).map
      (fun su => su.split_qubits.map fun q => q.parent) = some [none] := by
  refine ⟨rfl, by decide, by decide, by decide, by decide⟩

theorem listMapIdxFrom_map_proj {α β : Type} (g : Nat → α → α) (p : α → β)
    (hp : ∀ i x, p (g i x) = p x) (n : Nat) (xs : List α) :
    (listMapIdxFrom g n xs).map p = xs.map p := by
  induction xs generalizing n with
  | nil => rfl
  | cons x xs ih =>
    simp only [listMapIdxFrom, List.map_cons, hp, ih]

theorem collapse_skel (su : QuantumSubsystem) (f : Nat → BranchTag) :
    subSkel (su.collapse f) = subSkel su := by
  unfold QuantumSubsystem.collapse subSkel
  split_ifs
  · rfl
  · exact listMapIdxFrom_map_proj
      (fun i q => { q with collapsed_result := some (f i) })
      (fun q => (q.branch_a, q.branch_b, q.parent))
      (fun i x => rfl) 0 su.split_qubits

theorem collapse_all_get_skel (m : QuantumSplitManager) (o : Oracle)
    (i : Nat) :
    (((m.collapse_all o).subsystems.get? i).map subSkel) =
      (m.subsystems.get? i).map subSkel := by
  unfold QuantumSplitManager.collapse_all
  simp only [listMapIdx_get?]
  cases ho : m.subsystems.get? i
  · rfl
  · simp only [Option.map_some', collapse_skel]

theorem in_check_ns_skel (s : GameState) (o : Oracle) (c : Color) (i : Nat) :
    (((is_in_check_ns s o c).2.split_manager.subsystems.get? i).map subSkel) =
      (s.split_manager.subsystems.get? i).map subSkel := by
  unfold is_in_check_ns
  rcases hc : s.check_cache c with _ | v
  · simp only [hc]
    rcases hk : find_king s c with _ | kp
    · simp only [hk]
    · simp only [hk]
      by_cases hi : is_square_attacked s kp.1 kp.2 c = true
      · simp only [hi, eq_self_iff_true, if_true]
        exact collapse_all_get_skel s.split_manager o i
      · simp only [Bool.not_eq_true] at hi
        simp only [hi, Bool.false_eq_true, if_false]
        rfl
  · simp only [hc]

theorem is_checkmate_skel (s : GameState) (o : Oracle) (c : Color) (i : Nat) :
    (((is_checkmate s o c).2.split_manager.subsystems.get? i).map subSkel) =
      (s.split_manager.subsystems.get? i).map subSkel := by
  have h1 := in_check_ns_skel s o c i
  unfold is_checkmate
  cases hchk : (is_in_check_ns s o c).1 <;>
    simp only [hchk, Bool.not_false, Bool.not_true, Bool.false_eq_true, if_true,
      if_false]
  · exact h1
  · rcases escape_scan_preserves (is_in_check_ns s o c).2 c with
      ⟨_, _, _, _, _, _, _, e8⟩
    rw [e8]
    exact h1

theorem is_stalemate_skel (s : GameState) (o : Oracle) (c : Color) (i : Nat) :
    (((is_stalemate s o c).2.split_manager.subsystems.get? i).map subSkel) =
      (s.split_manager.subsystems.get? i).map subSkel := by
  have h1 := in_check_ns_skel s o c i
  unfold is_stalemate
  cases hchk : (is_in_check_ns s o c).1 <;>
    simp only [hchk, Bool.not_false, Bool.not_true, Bool.false_eq_true, if_true,
      if_false]
  · rcases escape_scan_preserves (is_in_check_ns s o c).2 c with
      ⟨_, _, _, _, _, _, _, e8⟩
    rw [e8]
    exact h1
  · exact h1

theorem end_eval_skel (s : GameState) (o : Oracle) (i : Nat) :
    (((end_of_move_eval s o).split_manager.subsystems.get? i).map subSkel) =
      (s.split_manager.subsystems.get? i).map subSkel := by
  have h1 := is_checkmate_skel s o s.turn i
  have h2 := is_stalemate_skel (is_checkmate s o s.turn).2 o
    (is_checkmate s o s.turn).2.turn i
  unfold end_of_move_eval
  cases hcm : (is_checkmate s o s.turn).1 <;>
    simp only [hcm, Bool.false_eq_true, if_true, if_false]
  · cases hsm : (is_stalemate (is_checkmate s o s.turn).2 o
        (is_checkmate s o s.turn).2.turn).1 <;>
      simp only [hsm, Bool.false_eq_true, if_true, if_false]
    · exact h2.trans h1
    · exact h2.trans h1
  · exact h1

theorem in_check_ns_false_frame (s : GameState) (o : Oracle) (c : Color)
    (h : (is_in_check_ns s o c).1 = false) :
    (is_in_check_ns s o c).2.board = s.board ∧
    (is_in_check_ns s o c).2.split_manager = s.split_manager ∧
    is_in_check_ns ((is_in_check_ns s o c).2) o c =
      (false, (is_in_check_ns s o c).2) := by
  rcases hc : s.check_cache c with _ | v
  · rcases hk : find_king s c with _ | kp
    · have he : is_in_check_ns s o c = (false, s) := by
        simp only [is_in_check_ns, hc, hk]
      rw [he]
      exact ⟨rfl, rfl, he⟩
    · rcases hi : is_square_attacked s kp.1 kp.2 c
      · have he : is_in_check_ns s o c = (false, setCache s c (some false)) := by
          simp only [is_in_check_ns, hc, hk, hi, Bool.false_eq_true, if_false]
        rw [he]
        refine ⟨rfl, rfl, ?_⟩
        show is_in_check_ns (setCache s c (some false)) o c =
          (false, setCache s c (some false))
        simp [is_in_check_ns, setCache]
      · have he2 : (is_in_check_ns s o c).1 = true := by
          simp only [is_in_check_ns, hc, hk, hi]
        exact absurd (he2.symm.trans h) (by decide)
  · have he : is_in_check_ns s o c = (v, s) := by
      simp only [is_in_check_ns, hc]
    have hv : v = false := by
      rw [he] at h
      exact h
    subst hv
    rw [he]
    refine ⟨rfl, rfl, ?_⟩
    show is_in_check_ns s o c = (false, s)
    exact he

theorem end_eval_not_in_check (s : GameState) (o : Oracle) (c : Color)
    (ht : s.turn = c) (h : (is_in_check_ns s o c).1 = false) :
    (end_of_move_eval s o).board = s.board ∧
    (end_of_move_eval s o).split_manager = s.split_manager := by
  rcases in_check_ns_false_frame s o c h with ⟨hb, hm, hstab⟩
  have hturn : (is_in_check_ns s o c).2.turn = c :=
    ((in_check_ns_preserves s o c).2.2.2.1).trans ht
  rcases escape_scan_preserves (is_in_check_ns s o c).2 c with
    ⟨_, _, _, _, _, _, e7, e8⟩
  have hcm : is_checkmate s o s.turn = (false, (is_in_check_ns s o c).2) := by
    unfold is_checkmate
    rw [ht]
    simp only [h, Bool.not_false, if_true]
  have hsm : is_stalemate (is_in_check_ns s o c).2 o c =
      (!(escape_scan (is_in_check_ns s o c).2 c).1,
        (escape_scan (is_in_check_ns s o c).2 c).2) := by
    unfold is_stalemate
    rw [hstab]
    simp only [Bool.false_eq_true, if_false]
  simp only [end_of_move_eval]
  rw [hcm]
  simp only [Bool.false_eq_true, if_false]
  rw [hturn, hsm]
  cases hesc : (escape_scan (is_in_check_ns s o c).2 c).1 <;>
    simp only [hesc, Bool.not_false, Bool.not_true, Bool.false_eq_true, if_true,
      if_false]
  · exact ⟨e7.trans hb, e8.trans hm⟩
  · exact ⟨e7.trans hb, e8.trans hm⟩

theorem make_move_rest_split_eq (s2 : GameState) (oracle : Oracle)
    (fr fc tr tc : Int) (p : Piece)
    (is_ep : Prop) [Decidable is_ep]
    (hne : ¬is_ep)
    (hpr : ¬(p.kind = Kind.p ∧ (tr = 0 ∨ tr = 7)))
    (hsm : s2.split_mode = true)
    (hcas : ¬(p.kind = Kind.k ∧ (tc - fc = 2 ∨ fc - tc = 2))) :
    make_move_rest s2 oracle fr fc tr tc p none is_ep =
      end_of_move_eval (split_move_state s2 fr fc tr tc p) oracle := by
  have hcond : ¬((!s2.split_mode) = true) := by
    rw [hsm]
    decide
  simp only [make_move_rest, if_neg hne, if_neg hcond, if_neg hcas, if_neg hpr]
  rfl

/-- C7 amended: a split-mode move from a non-split origin onto an empty
square (no en-passant capture, no promotion row, no castling jump,
distinct squares) always clears the split-mode flag and always appends a
fresh root subsystem whose single qubit carries the origin and destination
branches with no parent — the created qubit is never chained — surviving
the closing checkmate/stalemate evaluation whatever it does; and whenever
that evaluation's pessimistic check of the side now to move is negative,
the returned board keeps the piece at the origin and also shows it at the
destination, the subsystems are exactly the old ones plus the unmeasured
fresh root, and both squares are entered in the global index.  (An
affirmative closing check instead collapses every subsystem, per the
`is_in_check` semantics proved for C4.) -/
theorem C7_split_move (s : GameState) (oracle : Oracle)
    (fr fc tr tc : Int) (p : Piece)
    (hg : s.game_over = false) (he : s.edit_mode = false)
    (hsm : s.split_mode = true)
    (hfrom : bget s.board fr fc = some p)
    (hfmap : s.split_manager.global_position_map (fr, fc) = none)
    (hto : bget s.board tr tc = none)
    (hne2 : (fr, fc) ≠ ((tr, tc) : Pos))
    (hep : ¬(p.kind = Kind.p ∧ s.en_passant = some (tr, tc)))
    (hpr : ¬(p.kind = Kind.p ∧ (tr = 0 ∨ tr = 7)))
    (hcas : ¬(p.kind = Kind.k ∧ (tc - fc = 2 ∨ fc - tc = 2))) :
    (make_move s oracle fr fc tr tc).split_mode = false ∧
    ((make_move s oracle fr fc tr tc).split_manager.subsystems.get?
        s.split_manager.subsystems.length).map subSkel =
      some [(⟨(fr, fc), p⟩, ⟨(tr, tc), p⟩, none)] ∧
    ((is_in_check_ns (split_move_state s fr fc tr tc p) oracle
        s.turn.other).1 = false →
      (make_move s oracle fr fc tr tc).board =
        bset (bset s.board (fr, fc) (some p)) (tr, tc) (some p) ∧
      bget (make_move s oracle fr fc tr tc).board fr fc = some p ∧
      bget (make_move s oracle fr fc tr tc).board tr tc = some p ∧
      (make_move s oracle fr fc tr tc).split_manager.subsystems =
        s.split_manager.subsystems ++
          [⟨[⟨⟨(fr, fc), p⟩, ⟨(tr, tc), p⟩, none, none⟩], [], false⟩] ∧
      (make_move s oracle fr fc tr tc).split_manager.global_position_map
          (fr, fc) =
        some ⟨s.split_manager.subsystems.length, 0, BranchTag.a⟩ ∧
      (make_move s oracle fr fc tr tc).split_manager.global_position_map
          (tr, tc) =
        some ⟨s.split_manager.subsystems.length, 0, BranchTag.b⟩) := by
  have hre := make_move_rest_split_eq s oracle fr fc tr tc p
    (p.kind = Kind.p ∧ s.en_passant = some (tr, tc)) hep hpr hsm hcas
  rcases create_split_fresh s.split_manager (fr, fc) (tr, tc) p hfmap
    with ⟨hc1, hc2⟩
  have hsm9 : (split_move_state s fr fc tr tc p).split_mode = false := by
    simp only [split_move_state]
    split_ifs <;> rfl
  have hturn9 : (split_move_state s fr fc tr tc p).turn = s.turn.other := by
    simp only [split_move_state]
    split_ifs <;> rfl
  have hboard9 : (split_move_state s fr fc tr tc p).board =
      bset (bset s.board (fr, fc) (some p)) (tr, tc) (some p) := by
    simp only [split_move_state]
    split_ifs <;> rfl
  have hmgr9 : (split_move_state s fr fc tr tc p).split_manager =
      s.split_manager.create_split_qubit (fr, fc) (tr, tc) p := by
    simp only [split_move_state]
    split_ifs <;> rfl
  unfold make_move
  simp only [hg, he, Bool.or_self, Bool.false_eq_true, if_false, hfrom, hfmap,
    hto]
  have ha : (make_move_rest s oracle fr fc tr tc p none
      (p.kind = Kind.p ∧ s.en_passant = some (tr, tc))).split_mode = false := by
    rw [hre, (end_eval_preserves _ oracle).2.2.1]
    exact hsm9
  have hb : ((make_move_rest s oracle fr fc tr tc p none
      (p.kind = Kind.p ∧ s.en_passant = some (tr, tc))).split_manager.subsystems.get?
        s.split_manager.subsystems.length).map subSkel =
      some [(⟨(fr, fc), p⟩, ⟨(tr, tc), p⟩, none)] := by
    rw [hre, end_eval_skel, hmgr9, hc1, List.get?_concat_length]
    rfl
  refine ⟨ha, hb, ?_⟩
  intro hchk
  have hframe := end_eval_not_in_check (split_move_state s fr fc tr tc p)
    oracle s.turn.other hturn9 hchk
  have hB : (make_move_rest s oracle fr fc tr tc p none
      (p.kind = Kind.p ∧ s.en_passant = some (tr, tc))).board =
      bset (bset s.board (fr, fc) (some p)) (tr, tc) (some p) := by
    rw [hre, hframe.1]
    exact hboard9
  have hM : (make_move_rest s oracle fr fc tr tc p none
      (p.kind = Kind.p ∧ s.en_passant = some (tr, tc))).split_manager =
      s.split_manager.create_split_qubit (fr, fc) (tr, tc) p := by
    rw [hre, hframe.2]
    exact hmgr9
  have h4 : (make_move_rest s oracle fr fc tr tc p none
      (p.kind = Kind.p ∧ s.en_passant = some (tr, tc))).split_manager.subsystems =
      s.split_manager.subsystems ++
        [⟨[⟨⟨(fr, fc), p⟩, ⟨(tr, tc), p⟩, none, none⟩], [], false⟩] := by
    rw [hM]
    exact hc1
  have h5 : (make_move_rest s oracle fr fc tr tc p none
      (p.kind = Kind.p ∧ s.en_passant = some (tr, tc))).split_manager.global_position_map
        (fr, fc) =
      some ⟨s.split_manager.subsystems.length, 0, BranchTag.a⟩ := by
    rw [hM, hc2]
    simp [mupdate, hne2]
  have h6 : (make_move_rest s oracle fr fc tr tc p none
      (p.kind = Kind.p ∧ s.en_passant = some (tr, tc))).split_manager.global_position_map
        (tr, tc) =
      some ⟨s.split_manager.subsystems.length, 0, BranchTag.b⟩ := by
    rw [hM, hc2]
    simp [mupdate]
  exact ⟨hB, by rw [hB]; exact bget_bset2_fst s.board fr fc tr tc (some p),
    by rw [hB]; exact bget_bset2_snd s.board fr fc tr tc (some p), h4, h5, h6⟩

/-- Witness: in `c7wstate` (white pawn on (4,3), white king on (7,4),
black king on (0,4), split mode armed) the split step (4,3) → (3,3)
leaves Black out of check, so the returned state keeps the pawn at (4,3),
shows it at (3,3), holds exactly the one fresh unmeasured parent-less
root subsystem, and has the split flag cleared. -/
theorem C7_witness :
    c7wstate.split_mode = true ∧
    (make_move c7wstate oracleA 4 3 3 3).split_mode = false ∧
    (((make_move c7wstate oracleA 4 3 3 3).split_manager.subsystems.get?
        0).map subSkel) = some [(⟨(4, 3), wp⟩, ⟨(3, 3), wp⟩, none)] ∧
    (is_in_check_ns (split_move_state c7wstate 4 3 3 3 wp) oracleA
      Color.w.other).1 = false ∧
    bget (make_move c7wstate oracleA 4 3 3 3).board 4 3 = some wp ∧
    bget (make_move c7wstate oracleA 4 3 3 3).board 3 3 = some wp ∧
    (make_move c7wstate oracleA 4 3 3 3).split_manager.subsystems =
      [⟨[⟨⟨(4, 3), wp⟩, ⟨(3, 3), wp⟩, none, none⟩], [], false⟩] :=
  have h := C7_split_move c7wstate oracleA 4 3 3 3 wp rfl rfl rfl (by decide)
    rfl (by decide) (by decide) (by decide) (by decide) (by decide)
  have hchk : (is_in_check_ns (split_move_state c7wstate 4 3 3 3 wp) oracleA
      Color.w.other).1 = false := by decide
  ⟨rfl, h.1, h.2.1, hchk, (h.2.2 hchk).2.1, (h.2.2 hchk).2.2.1,
    (h.2.2 hchk).2.2.2.1⟩

end QChess
